import Mathlib

/-!
# Verification of the bulk email campaign scheduler core

Shallow embedding of `src/lib/email/task-calculator.ts` (class `TaskCalculator`,
the grouped-serial-execution version exporting `groupInfo`), the runtime
scheduler (`EmailScheduler`) and the mock send backend (`MockSMTPService`).

Modelling conventions, used throughout:
* JavaScript numbers at the magnitudes manipulated here (counts, indices,
  minutes, day numbers) behave as exact integers; they are embedded as `Nat`
  where the source keeps them non-negative by construction and as `Int` for
  the mutable statistics counters, which JavaScript would happily drive
  negative.
* `Math.ceil(a / b)` on non-negative integers is `ceilDiv`.
* The recipient id strings `receive-${i+1}` are generated from the index `i`
  by an injective template; recipients are embedded as the `Nat` index `i`.
* A JavaScript `Map` is embedded as an association list with
  insert-or-replace / delete-by-key operations; iteration order is never
  relevant to the properties proved here.
* Wall-clock `Date` arithmetic is abstracted: a job's scheduled instant is
  kept as its `(day, "HH:MM")` source data, timestamps recorded on
  completion become flags, and timer *handles* are represented by the key
  sets of the source's `timers` / `jobTimers` maps.
-/

namespace EmailSender

/-- `Math.ceil(a / b)` for non-negative integers (`b = 0` never occurs on the
paths reached by validated inputs). -/
def ceilDiv (a b : Nat) : Nat := (a + b - 1) / b

theorem ceilDiv_le_iff (a b k : Nat) (hb : 0 < b) :
    ceilDiv a b ≤ k ↔ a ≤ k * b := by
  unfold ceilDiv
  rw [Nat.div_le_iff_le_mul_add_pred hb, Nat.mul_comm b k]
  omega

theorem lt_ceilDiv (r N C : Nat) (hC : 0 < C) (h : r < N) :
    r / C < ceilDiv N C := by
  by_contra hcon
  push_neg at hcon
  rw [ceilDiv_le_iff _ _ _ hC] at hcon
  have hrC := Nat.div_mul_le_self r C
  omega

theorem ceilDiv_eq_pred_div_succ (T R : Nat) (hT : 0 < T) (hR : 0 < R) :
    ceilDiv T R = (T - 1) / R + 1 := by
  unfold ceilDiv
  have h1 : T + R - 1 = (T - 1) + 1 * R := by omega
  rw [h1, Nat.add_mul_div_right _ _ hR]

theorem ceilDiv_pos (T R : Nat) (hT : 0 < T) (hR : 0 < R) : 0 < ceilDiv T R := by
  rw [ceilDiv_eq_pred_div_succ T R hT hR]; exact Nat.succ_pos _

theorem ceilDiv_eq_one (T R : Nat) (hT : 0 < T) (hTR : T ≤ R) :
    ceilDiv T R = 1 := by
  have hR : 0 < R := lt_of_lt_of_le hT hTR
  rw [ceilDiv_eq_pred_div_succ T R hT hR]
  rw [Nat.div_eq_of_lt (by omega)]

/-! ## Planner data model (`task-calculator.ts`) -/

/-- One `(sendEmailId, receiveEmailIds, plannedSendTime)` record of a
`DaySchedule`. Recipient ids are embedded as their generating index. -/
structure SenderDaySchedule where
  sendEmailId : String
  receiveEmailIds : List Nat
  plannedSendTime : List String
  deriving Repr, DecidableEq

/-- One day of the sending schedule. -/
structure DaySchedule where
  day : Nat
  sendEmails : List SenderDaySchedule
  totalEmailsForDay : Nat
  deriving Repr, DecidableEq

/-- The `groupInfo` block of the calculation result. -/
structure GroupInfo where
  totalGroups : Nat
  daysPerGroup : Nat
  companiesPerGroup : Nat
  companyDailyCapacity : Nat
  currentGroupDailyCapacity : Nat
  deriving Repr, DecidableEq

/-- `TaskCalculationResult`. The seeded status matrix is the set of
`(receiveEmailId, sendEmailId)` cells; every seeded cell carries the literal
status `'pending'` in the source, so the set of cells is the whole content. -/
structure TaskCalculationResult where
  totalEmails : Nat
  calculatedDays : Nat
  dailySendLimit : Nat
  dailyReceiveLimit : Nat
  effectiveDailyRate : Nat
  sendingSchedule : List DaySchedule
  statusMatrix : Finset (Nat × String)
  groupInfo : GroupInfo
  deriving DecidableEq

/-- Planner input `TaskParams` (the claims quantify over integer-valued
parameters; fractional `emailsPerHour` is §9.2's open question and out of
scope of the frozen claims). -/
structure TaskParams where
  sendEmailIds : List String
  receiveEmailCount : Nat
  emailsPerHour : Nat
  emailsPerTeacherPerDay : Nat
  workingHours : Nat := 24
  deriving Repr, DecidableEq

/-- `padStart(2, '0')` composed with `toString` on a natural number. -/
def pad2 (n : Nat) : String :=
  if (toString n).length < 2 then "0" ++ toString n else toString n

/-- The `"HH:MM"` label `${pad2 h}:${pad2 m}`. -/
def timeLabel (h m : Nat) : String := pad2 h ++ ":" ++ pad2 m

/-- The inner loop of `generateHourlySendTimes`: emit the labels for hour
`hour` onward while hours (`hoursLeft`) and emails (`remaining`) remain.
`minute = Math.floor((i / emailsThisHour) * 60)`. -/
def hourlyTimesFrom (emailsPerHour : Nat) : Nat → Nat → Nat → List String
  | _, 0, _ => []
  | _, _ + 1, 0 => []
  | hour, hoursLeft + 1, remaining + 1 =>
    ((List.range (min emailsPerHour (remaining + 1))).map
        (fun i => timeLabel hour (i * 60 / min emailsPerHour (remaining + 1))))
      ++ hourlyTimesFrom emailsPerHour (hour + 1) hoursLeft
          (remaining + 1 - min emailsPerHour (remaining + 1))

/-- `TaskCalculator.generateHourlySendTimes`. -/
def generateHourlySendTimes (totalEmails emailsPerHour workingHours : Nat) : List String :=
  hourlyTimesFrom emailsPerHour 0 workingHours totalEmails

/-- `TaskCalculator.createSenderGroups`: if `sendersPerDay ≥ totalSenders`
return the single group of all senders; otherwise `ceil(total/perDay)` groups
whose member `i` is `sendEmailIds[(groupIndex*perDay + i) % totalSenders]`. -/
def createSenderGroups (sendEmailIds : List String) (sendersPerDay : Nat) :
    List (List String) :=
  let totalSenders := sendEmailIds.length
  if totalSenders ≤ sendersPerDay then [sendEmailIds]
  else
    (List.range (ceilDiv totalSenders sendersPerDay)).map (fun groupIndex =>
      (List.range sendersPerDay).map (fun i =>
        sendEmailIds.getD ((groupIndex * sendersPerDay + i) % totalSenders) ""))

/-- The repair block of `generateSchedule`: pad `plannedSendTime` with its
last element (`'00:00'` when empty) up to the target length, then truncate. -/
def repairTimes (times : List String) (target : Nat) : List String :=
  if times.length < target then
    times ++ List.replicate (target - times.length) (times.getLastD "00:00")
  else times.take target

/-- The per-company body of `generateSchedule`'s inner loop: number of emails
this company sends on day `dayInGroup` of its group, the assigned recipient
indices, and the planned times (with the length-mismatch repair). Returns
`none` when `remainingEmailsForCompany = 0` (entry skipped). -/
def companyDayEntry (receiveEmailCount companyDailyCapacity emailsPerHour
    workingHours : Nat) (sendEmailId : String) (dayInGroup : Nat) :
    Option (SenderDaySchedule × Nat) :=
  let emailsAlreadySent := (dayInGroup - 1) * companyDailyCapacity
  let remainingEmailsForCompany := receiveEmailCount - emailsAlreadySent
  if remainingEmailsForCompany > 0 then
    let emailsForThisCompany := min companyDailyCapacity remainingEmailsForCompany
    let receiveEmailsForThisCompany :=
      (List.range emailsForThisCompany).filterMap (fun i =>
        if emailsAlreadySent + i < receiveEmailCount
        then some (emailsAlreadySent + i) else none)
    let plannedSendTime :=
      generateHourlySendTimes emailsForThisCompany emailsPerHour workingHours
    let plannedSendTime :=
      if plannedSendTime.length ≠ receiveEmailsForThisCompany.length
      then repairTimes plannedSendTime receiveEmailsForThisCompany.length
      else plannedSendTime
    some (⟨sendEmailId, receiveEmailsForThisCompany, plannedSendTime⟩,
          emailsForThisCompany)
  else none

/-- One `DaySchedule` of `generateSchedule`, assuming the current group
exists. -/
def buildDaySchedule (receiveEmailCount companyDailyCapacity emailsPerHour
    workingHours : Nat) (currentGroup : List String) (day dayInGroup : Nat) :
    DaySchedule :=
  let entries := currentGroup.filterMap (fun sid =>
    companyDayEntry receiveEmailCount companyDailyCapacity emailsPerHour
      workingHours sid dayInGroup)
  { day := day
    sendEmails := entries.map Prod.fst
    totalEmailsForDay := (entries.map Prod.snd).sum }

/-- The day loop of `generateSchedule`; `remaining` counts the days still to
produce, and the loop `break`s if the computed group index overruns the group
list. -/
def scheduleDays (senderGroups : List (List String))
    (receiveEmailCount companyDailyCapacity emailsPerHour workingHours
      daysPerGroup : Nat) : Nat → Nat → List DaySchedule
  | _, 0 => []
  | day, remaining + 1 =>
    let currentGroupIndex := (day - 1) / daysPerGroup
    let dayInGroup := (day - 1) % daysPerGroup + 1
    if h : currentGroupIndex < senderGroups.length then
      buildDaySchedule receiveEmailCount companyDailyCapacity emailsPerHour
          workingHours (senderGroups.get ⟨currentGroupIndex, h⟩) day dayInGroup
        :: scheduleDays senderGroups receiveEmailCount companyDailyCapacity
            emailsPerHour workingHours daysPerGroup (day + 1) remaining
    else []

/-- `TaskCalculator.generateSchedule` (grouped serial execution). -/
def generateSchedule (params : TaskParams) (calculatedDays daysPerGroup
    companyDailyCapacity : Nat) : List DaySchedule :=
  let senderGroups :=
    createSenderGroups params.sendEmailIds params.emailsPerTeacherPerDay
  scheduleDays senderGroups params.receiveEmailCount companyDailyCapacity
    params.emailsPerHour params.workingHours daysPerGroup 1 calculatedDays

/-- `TaskCalculator.initializeStatusMatrix`: seed `'pending'` exactly at the
`(recipient, sender)` pairs that occur in the schedule; repeated assignments
to the same nested key leave a single cell, hence a set of pairs. -/
def initializeStatusMatrix (sendingSchedule : List DaySchedule) :
    Finset (Nat × String) :=
  (sendingSchedule.flatMap (fun d =>
    d.sendEmails.flatMap (fun se =>
      se.receiveEmailIds.map (fun r => (r, se.sendEmailId))))).toFinset

/-- `TaskCalculator.calculateTask`. -/
def calculateTask (params : TaskParams) : TaskCalculationResult :=
  let sendEmailCount := params.sendEmailIds.length
  let companiesPerGroup := params.emailsPerTeacherPerDay
  let totalGroups := ceilDiv sendEmailCount companiesPerGroup
  let companyDailyCapacity := params.emailsPerHour * params.workingHours
  let daysPerGroup := ceilDiv params.receiveEmailCount companyDailyCapacity
  let calculatedDays := totalGroups * daysPerGroup
  let totalEmails := sendEmailCount * params.receiveEmailCount
  let currentGroupSize := min companiesPerGroup sendEmailCount
  let currentGroupDailyCapacity := currentGroupSize * companyDailyCapacity
  let dailySendLimit :=
    sendEmailCount * params.emailsPerHour * params.workingHours
  let dailyReceiveLimit :=
    params.receiveEmailCount * params.emailsPerTeacherPerDay
  let effectiveDailyRate := min currentGroupDailyCapacity dailyReceiveLimit
  let sendingSchedule :=
    generateSchedule params calculatedDays daysPerGroup companyDailyCapacity
  { totalEmails := totalEmails
    calculatedDays := calculatedDays
    dailySendLimit := dailySendLimit
    dailyReceiveLimit := dailyReceiveLimit
    effectiveDailyRate := effectiveDailyRate
    sendingSchedule := sendingSchedule
    statusMatrix := initializeStatusMatrix sendingSchedule
    groupInfo :=
      { totalGroups := totalGroups
        daysPerGroup := daysPerGroup
        companiesPerGroup := companiesPerGroup
        companyDailyCapacity := companyDailyCapacity
        currentGroupDailyCapacity := currentGroupDailyCapacity } }

/-! ## Mock send backend (`mock-smtp-service.ts`) -/

/-- The payload passed to `MockSMTPService.sendEmail`. -/
structure EmailContent where
  sendEmailId : String
  receiveEmailId : Nat
  subject : String
  content : String
  deriving Repr, DecidableEq

/-- `EmailSendResult`. -/
structure EmailSendResult where
  success : Bool
  messageId : Option String
  errorMessage : Option String
  deriving Repr, DecidableEq

/-- One entry of `MockSMTPService.sendHistory`; timestamps in ms. -/
structure SendRecord where
  timestamp : Int
  sendEmailId : String
  count : Nat
  deriving Repr, DecidableEq

/-- The simulated error messages, in source order. -/
def errorMessages : List String :=
  ["Recipient mailbox full", "Temporary server error",
   "Invalid recipient address", "Message blocked by spam filter"]

/-- `checkAntiSpamLimits`: prune history to the last hour (this mutation
persists even when the check throws), then throw — returned as the second
component — if the per-hour (`≥ 100`) or the per-minute (`≥ 10`) count for
the sender is exceeded. -/
def checkAntiSpamLimits (history : List SendRecord) (sendEmailId : String)
    (now : Int) : List SendRecord × Option String :=
  let oneHourAgo := now - 60 * 60 * 1000
  let oneMinuteAgo := now - 60 * 1000
  let cleaned := history.filter (fun r => decide (oneHourAgo < r.timestamp))
  let hourlyCount := ((cleaned.filter (fun r =>
    (r.sendEmailId == sendEmailId) && decide (oneHourAgo < r.timestamp))).map
      (·.count)).sum
  if 100 ≤ hourlyCount then
    (cleaned, some ("Anti-spam limit exceeded: " ++ toString hourlyCount
      ++ " emails in last hour"))
  else
    let minutelyCount := ((cleaned.filter (fun r =>
      (r.sendEmailId == sendEmailId) && decide (oneMinuteAgo < r.timestamp))).map
        (·.count)).sum
    if 10 ≤ minutelyCount then
      (cleaned, some ("Anti-spam limit exceeded: " ++ toString minutelyCount
        ++ " emails in last minute"))
    else (cleaned, none)

/-- `simulateSendResult`; the coin flip `Math.random() < successRate` and the
random message id / error index are inputs of the model. -/
def simulateSendResult (isSuccess : Bool) (messageId : String) (errIdx : Fin 4) :
    EmailSendResult :=
  if isSuccess then
    { success := true, messageId := some messageId, errorMessage := none }
  else
    { success := false, messageId := none,
      errorMessage := some (errorMessages.getD errIdx.val "") }

/-- Modify the first element satisfying `p` (helper for
`recordSendHistory`'s `find`-then-mutate). -/
def listModifyFirst (p : α → Bool) (f : α → α) : List α → List α
  | [] => []
  | x :: xs => if p x then f x :: xs else x :: listModifyFirst p f xs

/-- `recordSendHistory`: bump the count of an existing record of this sender
inside the 60 s cooldown window, else append a fresh record. -/
def recordSendHistory (history : List SendRecord) (sendEmailId : String)
    (now : Int) : List SendRecord :=
  let withinCooldown := fun (r : SendRecord) =>
    (r.sendEmailId == sendEmailId) && decide (now - r.timestamp < 60 * 1000)
  if history.any withinCooldown then
    listModifyFirst withinCooldown (fun r => { r with count := r.count + 1 })
      history
  else
    history ++ [{ timestamp := now, sendEmailId := sendEmailId, count := 1 }]

/-- `MockSMTPService.sendEmail` as the outcome of its returned promise:
`.ok result` when the promise resolves, `.error msg` when it would reject.
The whole body sits in a try/catch whose catch converts every thrown error
(in particular the anti-spam rejection) into a *resolved*
`{success: false, errorMessage}`, so the promise never rejects. -/
def smtpSendEmail (history : List SendRecord) (email : EmailContent)
    (now : Int) (isSuccess : Bool) (messageId : String) (errIdx : Fin 4) :
    Except String EmailSendResult × List SendRecord :=
  let (cleaned, spamErr) := checkAntiSpamLimits history email.sendEmailId now
  match spamErr with
  | some e =>
    (.ok { success := false, messageId := none, errorMessage := some e },
     cleaned)
  | none =>
    let result := simulateSendResult isSuccess messageId errIdx
    if result.success then
      (.ok result, recordSendHistory cleaned email.sendEmailId now)
    else
      (.ok result, cleaned)

/-! ## Runtime scheduler (`EmailScheduler`) -/

/-- `EmailJob.status`. -/
inductive JobStatus
  | pending
  | processing
  | sent
  | failed
  deriving Repr, DecidableEq, BEq

/-- `EmailJob`. `scheduledTime` is kept as its defining data — the 1-based
day and the `"HH:MM"` label — because no claim depends on the wall-clock
`Date`; `sentAt` records whether a completion timestamp was written. -/
structure EmailJob where
  id : String
  taskId : String
  sendEmailId : String
  receiveEmailId : Nat
  scheduledDay : Nat
  scheduledLabel : String
  status : JobStatus
  attempts : Nat
  errorMessage : Option String
  sentAt : Bool
  deriving Repr, DecidableEq

/-- `TaskStatistics`; the counters are mutable JavaScript numbers, embedded
as `Int` (the source can drive them below zero), and the two derived rates
are embedded as exact rationals. -/
structure TaskStatistics where
  totalSent : Int
  totalFailed : Int
  totalPending : Int
  successRate : ℚ
  currentProgress : ℚ
  deriving DecidableEq

/-- `SchedulerTask`; `startedAt`/`completedAt` timestamps abstracted to
presence flags. -/
structure SchedulerTask where
  taskId : String
  calculation : TaskCalculationResult
  currentDay : Nat
  isRunning : Bool
  startedAt : Bool
  completedAt : Bool
  statistics : TaskStatistics
  deriving DecidableEq

/-- JavaScript `String.prototype.startsWith`. -/
def strStartsWith (s pre : String) : Bool := pre.data.isPrefixOf s.data

/-- `Map.get`. -/
def mapFind (m : List (String × α)) (k : String) : Option α :=
  (m.find? (fun p => p.1 == k)).map (·.2)

/-- `Map.set` (insert or replace). -/
def mapSet (m : List (String × α)) (k : String) (v : α) : List (String × α) :=
  (k, v) :: m.filter (fun p => !(p.1 == k))

/-- `Map.delete`. -/
def mapErase (m : List (String × α)) (k : String) : List (String × α) :=
  m.filter (fun p => !(p.1 == k))

/-- In-place mutation of the object stored under `k`. -/
def mapUpdate (m : List (String × α)) (k : String) (f : α → α) :
    List (String × α) :=
  m.map (fun p => if p.1 == k then (p.1, f p.2) else p)

/-- Insert a key into a timer-key set (`Map.set` on the handle maps; only
the key set is modelled). -/
def keyInsert (k : String) (l : List String) : List String :=
  k :: l.filter (fun x => !(x == k))

/-- The scheduler's whole mutable state: the three maps and the job-timer
map, each by key. -/
structure SchedState where
  tasks : List (String × SchedulerTask)
  emailJobs : List (String × EmailJob)
  timers : List String
  jobTimers : List String
  deriving DecidableEq

/-- The empty scheduler (a fresh `EmailScheduler`). -/
def initState : SchedState := ⟨[], [], [], []⟩

/-- `clearTaskTimers`: drop every timer and job timer whose key starts with
`taskId`. -/
def clearTaskTimers (s : SchedState) (taskId : String) : SchedState :=
  { s with
    timers := s.timers.filter (fun k => !(strStartsWith k taskId))
    jobTimers := s.jobTimers.filter (fun k => !(strStartsWith k taskId)) }

/-- `cleanupTask`: clear timers, delete the task entry, delete every job
whose id starts with `taskId`. -/
def cleanupTask (s : SchedState) (taskId : String) : SchedState :=
  let s := clearTaskTimers s taskId
  { s with
    tasks := mapErase s.tasks taskId
    emailJobs := s.emailJobs.filter (fun p => !(strStartsWith p.1 taskId)) }

/-- `${taskId}-${sendEmailId}-${receiveEmailId}-${dayIndex}-${emailIndex}`
(the recipient id rendered from its index). -/
def jobId (taskId sendEmailId : String) (receiveEmailId dayIndex
    emailIndex : Nat) : String :=
  taskId ++ "-" ++ sendEmailId ++ "-" ++ toString receiveEmailId ++ "-"
    ++ toString dayIndex ++ "-" ++ toString emailIndex

/-- The fallback `"${dayIndex}:00"` label used when `plannedSendTime` has no
(truthy) entry at `emailIndex`. -/
def defaultTimeLabel (dayIndex : Nat) : String := pad2 dayIndex ++ ":00"

/-- Build one job of `generateEmailJobs`; a missing or empty (falsy)
`plannedSendTime[emailIndex]` takes the logged default-time branch. -/
def mkJob (taskId : String) (se : SenderDaySchedule)
    (dayIndex emailIndex receiveEmailId : Nat) : EmailJob :=
  let label :=
    match se.plannedSendTime[emailIndex]? with
    | some t => if t = "" then defaultTimeLabel dayIndex else t
    | none => defaultTimeLabel dayIndex
  { id := jobId taskId se.sendEmailId receiveEmailId dayIndex emailIndex
    taskId := taskId
    sendEmailId := se.sendEmailId
    receiveEmailId := receiveEmailId
    scheduledDay := dayIndex + 1
    scheduledLabel := label
    status := .pending
    attempts := 0
    errorMessage := none
    sentAt := false }

/-- `generateEmailJobs`: one job per `(day, sender, recipient)` occurrence of
the schedule. -/
def generateEmailJobs (taskId : String) (sendingSchedule : List DaySchedule) :
    List EmailJob :=
  sendingSchedule.enum.flatMap (fun di =>
    di.2.sendEmails.flatMap (fun se =>
      se.receiveEmailIds.enum.map (fun ei => mkJob taskId se di.1 ei.1 ei.2)))

/-- `scheduleAllEmails`: no-op unless the task exists and is running; arms a
per-job timer for every still-`pending` job of the task (jobs whose delay
already elapsed are dispatched on a zero-delay timeout, which the model
reflects by letting a dispatch fire at any time) and the 60 s completion
check timer `"${taskId}-completion-check"`. -/
def scheduleAllEmails (s : SchedState) (taskId : String) : SchedState :=
  match mapFind s.tasks taskId with
  | none => s
  | some task =>
    if task.isRunning then
      let pendingIds := (s.emailJobs.filter (fun p =>
        (p.2.taskId == taskId) && (p.2.status == JobStatus.pending))).map (·.1)
      { s with
        jobTimers := pendingIds.foldl (fun acc k => keyInsert k acc) s.jobTimers
        timers := keyInsert (taskId ++ "-completion-check") s.timers }
    else s

/-- The `startTask` error outcomes (`throw new Error(...)`), tagged. -/
inductive StartError
  | emptySchedule (taskId : String)
  | dataIntegrity (taskId : String) (day : Nat)
  deriving Repr, DecidableEq

/-- The integrity scan of `startTask`: 1-based day of the first
`(day, sender)` with `receiveEmailIds.length !== plannedSendTime.length`. -/
def firstMismatchDay (sched : List DaySchedule) : Option Nat :=
  (sched.enum.find? (fun di =>
    di.2.sendEmails.any (fun se =>
      !(se.receiveEmailIds.length == se.plannedSendTime.length)))).map
    (fun di => di.1 + 1)

/-- `startTask`. Mutations performed before a `throw` persist (the cleanup
runs first), which the model captures by returning the state reached at the
throw point together with the error. -/
def startTask (s : SchedState) (taskId : String)
    (calcResult : TaskCalculationResult) : SchedState × Option StartError :=
  let s1 := cleanupTask s taskId
  if calcResult.sendingSchedule.isEmpty then
    (s1, some (.emptySchedule taskId))
  else
    match firstMismatchDay calcResult.sendingSchedule with
    | some d => (s1, some (.dataIntegrity taskId d))
    | none =>
      let task : SchedulerTask :=
        { taskId := taskId
          calculation := calcResult
          currentDay := 1
          isRunning := true
          startedAt := true
          completedAt := false
          statistics :=
            { totalSent := 0
              totalFailed := 0
              totalPending := (calcResult.totalEmails : Int)
              successRate := 0
              currentProgress := 0 } }
      let s2 := { s1 with tasks := mapSet s1.tasks taskId task }
      let jobs := generateEmailJobs taskId calcResult.sendingSchedule
      let s3 := { s2 with
        emailJobs := jobs.foldl (fun m j => mapSet m j.id j) s2.emailJobs }
      (scheduleAllEmails s3 taskId, none)

/-- `pauseTask`: if the task exists, set `isRunning := false` and clear its
timers; job statuses untouched. -/
def pauseTask (s : SchedState) (taskId : String) : SchedState :=
  match mapFind s.tasks taskId with
  | none => s
  | some _ =>
    clearTaskTimers
      { s with tasks :=
          mapUpdate s.tasks taskId (fun t => { t with isRunning := false }) }
      taskId

/-- `resumeTask`: only when present and not running; re-arm everything. -/
def resumeTask (s : SchedState) (taskId : String) : SchedState :=
  match mapFind s.tasks taskId with
  | none => s
  | some task =>
    if task.isRunning then s
    else
      scheduleAllEmails
        { s with tasks :=
            mapUpdate s.tasks taskId (fun t => { t with isRunning := true }) }
        taskId

/-- `stopTask` is `cleanupTask` plus a log line. -/
def stopTask (s : SchedState) (taskId : String) : SchedState :=
  cleanupTask s taskId

/-- `completeTask`: mark not running, record completion, clear timers. -/
def completeTask (s : SchedState) (taskId : String) : SchedState :=
  match mapFind s.tasks taskId with
  | none => s
  | some _ =>
    let newTasks :=
      mapUpdate s.tasks taskId
        (fun t => { t with isRunning := false, completedAt := true })
    clearTaskTimers { s with tasks := newTasks } taskId

/-- The body of the 60 s completion-check tick. -/
def completionCheck (s : SchedState) (taskId : String) : SchedState :=
  match mapFind s.tasks taskId with
  | none => s
  | some task =>
    if task.isRunning then
      let pendingCount := (s.emailJobs.filter (fun p =>
        (p.2.taskId == taskId) && (p.2.status == JobStatus.pending))).length
      if pendingCount = 0 then completeTask s taskId
      else { s with timers := keyInsert (taskId ++ "-completion-check") s.timers }
    else s

/-- `reset`: cancel everything and clear all four maps. -/
def resetScheduler (_ : SchedState) : SchedState := initState

/-- Phase 1 of `sendEmail` (timer fired, up to the `await`): re-check that
the task exists and `isRunning` (no-op otherwise), clear this job's timer,
mark the job `processing` and bump `attempts`. -/
def beginDispatch (s : SchedState) (jid : String) : SchedState :=
  match mapFind s.emailJobs jid with
  | none => s
  | some job =>
    match mapFind s.tasks job.taskId with
    | none => s
    | some task =>
      if task.isRunning then
        { s with
          jobTimers := s.jobTimers.filter (fun k => !(k == jid))
          emailJobs := mapUpdate s.emailJobs jid (fun j =>
            { j with status := .processing, attempts := j.attempts + 1 }) }
      else s

/-- The job mutation of `sendEmail` after the `await`: the `try` branch runs
on a resolved promise — *whatever* `success` flag the resolved
`EmailSendResult` carries — and the `catch` branch only on a rejected one. -/
def applyOutcome (r : Except String EmailSendResult) (j : EmailJob) : EmailJob :=
  match r with
  | .ok _ => { j with status := .sent, sentAt := true }
  | .error e => { j with status := .failed, errorMessage := some e }

/-- The counter mutation paired with `applyOutcome`. -/
def statsOutcome (r : Except String EmailSendResult) (st : TaskStatistics) :
    TaskStatistics :=
  match r with
  | .ok _ => { st with totalSent := st.totalSent + 1,
                       totalPending := st.totalPending - 1 }
  | .error _ => { st with totalFailed := st.totalFailed + 1,
                          totalPending := st.totalPending - 1 }

/-- `updateTaskStatistics`. -/
def updateTaskStatistics (t : SchedulerTask) : SchedulerTask :=
  let completed := t.statistics.totalSent + t.statistics.totalFailed
  { t with statistics :=
    { t.statistics with
      successRate :=
        if 0 < completed
        then (t.statistics.totalSent : ℚ) / (completed : ℚ) * 100 else 0
      currentProgress :=
        (completed : ℚ) / (t.calculation.totalEmails : ℚ) * 100 } }

/-- Phase 2 of `sendEmail` (continuation after the `await` resolved or
rejected with `r`): terminal job status, counters, derived statistics. The
source mutates the job and task *objects captured at phase 1* with no
re-check; mutation of objects no longer reachable from the maps is invisible
there, which the model renders by keyed updates (`mapUpdate` is the identity
on an absent key): a job id is finished only while the map holds it in
status `processing`. -/
def finishDispatch (s : SchedState) (jid : String)
    (r : Except String EmailSendResult) : SchedState :=
  match mapFind s.emailJobs jid with
  | none => s
  | some job =>
    if job.status == JobStatus.processing then
      { s with
        emailJobs := mapUpdate s.emailJobs jid (applyOutcome r)
        tasks := mapUpdate s.tasks job.taskId (fun t =>
          updateTaskStatistics
            { t with statistics := statsOutcome r t.statistics }) }
    else s

/-- The events of the concurrency model: public API calls, a job timer (or
zero-delay dispatch) firing, a send completing with the backend's promise
outcome, the completion-check tick, and the administrative reset. Any
interleaving is a `List Step`. -/
inductive Step
  | start (taskId : String) (calcResult : TaskCalculationResult)
  | pause (taskId : String)
  | resume (taskId : String)
  | stop (taskId : String)
  | fire (jobId : String)
  | complete (jobId : String) (r : Except String EmailSendResult)
  | check (taskId : String)
  | reset

/-- Interpret one event. -/
def applyStep (s : SchedState) : Step → SchedState
  | .start taskId calcResult => (startTask s taskId calcResult).1
  | .pause taskId => pauseTask s taskId
  | .resume taskId => resumeTask s taskId
  | .stop taskId => stopTask s taskId
  | .fire jobId => beginDispatch s jobId
  | .complete jobId r => finishDispatch s jobId r
  | .check taskId => completionCheck s taskId
  | .reset => resetScheduler s

/-- Run an interleaving. -/
def applySteps (s : SchedState) (l : List Step) : SchedState :=
  l.foldl applyStep s

/-! ## Branch equations of the scheduler operations -/

theorem pauseTask_none {s : SchedState} {tid : String}
    (h : mapFind s.tasks tid = none) : pauseTask s tid = s := by
  unfold pauseTask
  rw [h]

theorem pauseTask_some {s : SchedState} {tid : String} {t : SchedulerTask}
    (h : mapFind s.tasks tid = some t) :
    pauseTask s tid = clearTaskTimers
      { s with tasks :=
          mapUpdate s.tasks tid (fun u => { u with isRunning := false }) }
      tid := by
  unfold pauseTask
  rw [h]

theorem resumeTask_none {s : SchedState} {tid : String}
    (h : mapFind s.tasks tid = none) : resumeTask s tid = s := by
  unfold resumeTask
  rw [h]

theorem resumeTask_running {s : SchedState} {tid : String} {t : SchedulerTask}
    (h : mapFind s.tasks tid = some t) (ht : t.isRunning = true) :
    resumeTask s tid = s := by
  unfold resumeTask
  rw [h]
  simp [ht]

theorem resumeTask_paused {s : SchedState} {tid : String} {t : SchedulerTask}
    (h : mapFind s.tasks tid = some t) (ht : t.isRunning = false) :
    resumeTask s tid = scheduleAllEmails
      { s with tasks :=
          mapUpdate s.tasks tid (fun u => { u with isRunning := true }) }
      tid := by
  unfold resumeTask
  rw [h]
  simp [ht]

theorem beginDispatch_noJob {s : SchedState} {jid : String}
    (h : mapFind s.emailJobs jid = none) : beginDispatch s jid = s := by
  unfold beginDispatch
  rw [h]

theorem beginDispatch_noTask {s : SchedState} {jid : String} {job : EmailJob}
    (hj : mapFind s.emailJobs jid = some job)
    (ht : mapFind s.tasks job.taskId = none) : beginDispatch s jid = s := by
  unfold beginDispatch
  rw [hj]
  dsimp only
  rw [ht]

theorem beginDispatch_notRunning {s : SchedState} {jid : String}
    {job : EmailJob} {task : SchedulerTask}
    (hj : mapFind s.emailJobs jid = some job)
    (ht : mapFind s.tasks job.taskId = some task)
    (hr : task.isRunning = false) : beginDispatch s jid = s := by
  unfold beginDispatch
  rw [hj]
  dsimp only
  rw [ht]
  simp [hr]

theorem beginDispatch_running {s : SchedState} {jid : String}
    {job : EmailJob} {task : SchedulerTask}
    (hj : mapFind s.emailJobs jid = some job)
    (ht : mapFind s.tasks job.taskId = some task)
    (hr : task.isRunning = true) :
    beginDispatch s jid =
      { s with
        jobTimers := s.jobTimers.filter (fun k => !(k == jid))
        emailJobs := mapUpdate s.emailJobs jid (fun j =>
          { j with status := JobStatus.processing,
                   attempts := j.attempts + 1 }) } := by
  unfold beginDispatch
  rw [hj]
  dsimp only
  rw [ht]
  simp [hr]

theorem finishDispatch_noJob {s : SchedState} {jid : String}
    {r : Except String EmailSendResult}
    (h : mapFind s.emailJobs jid = none) : finishDispatch s jid r = s := by
  unfold finishDispatch
  rw [h]

theorem finishDispatch_notProcessing {s : SchedState} {jid : String}
    {r : Except String EmailSendResult} {job : EmailJob}
    (hj : mapFind s.emailJobs jid = some job)
    (hs : (job.status == JobStatus.processing) = false) :
    finishDispatch s jid r = s := by
  unfold finishDispatch
  rw [hj]
  dsimp only
  simp [hs]

theorem finishDispatch_processing {s : SchedState} {jid : String}
    {r : Except String EmailSendResult} {job : EmailJob}
    (hj : mapFind s.emailJobs jid = some job)
    (hs : (job.status == JobStatus.processing) = true) :
    finishDispatch s jid r =
      { s with
        emailJobs := mapUpdate s.emailJobs jid (applyOutcome r)
        tasks := mapUpdate s.tasks job.taskId (fun t =>
          updateTaskStatistics
            { t with statistics := statsOutcome r t.statistics }) } := by
  unfold finishDispatch
  rw [hj]
  dsimp only
  simp [hs]

theorem completeTask_none {s : SchedState} {tid : String}
    (h : mapFind s.tasks tid = none) : completeTask s tid = s := by
  unfold completeTask
  rw [h]

theorem completeTask_some {s : SchedState} {tid : String} {t : SchedulerTask}
    (h : mapFind s.tasks tid = some t) :
    completeTask s tid = clearTaskTimers
      { s with tasks := mapUpdate s.tasks tid (fun u => { u with isRunning := false, completedAt := true }) }
      tid := by
  unfold completeTask
  rw [h]

theorem completionCheck_noTask {s : SchedState} {tid : String}
    (h : mapFind s.tasks tid = none) : completionCheck s tid = s := by
  unfold completionCheck
  rw [h]

theorem completionCheck_notRunning {s : SchedState} {tid : String}
    {t : SchedulerTask} (h : mapFind s.tasks tid = some t)
    (ht : t.isRunning = false) : completionCheck s tid = s := by
  unfold completionCheck
  rw [h]
  simp [ht]

theorem completionCheck_done {s : SchedState} {tid : String}
    {t : SchedulerTask} (h : mapFind s.tasks tid = some t)
    (ht : t.isRunning = true)
    (hp : ((s.emailJobs.filter (fun p =>
      (p.2.taskId == tid) && (p.2.status == JobStatus.pending))).length) = 0) :
    completionCheck s tid = completeTask s tid := by
  unfold completionCheck
  rw [h]
  simp only [ht, if_true]
  rw [if_pos hp]

theorem completionCheck_pendingLeft {s : SchedState} {tid : String}
    {t : SchedulerTask} (h : mapFind s.tasks tid = some t)
    (ht : t.isRunning = true)
    (hp : ¬ ((s.emailJobs.filter (fun p =>
      (p.2.taskId == tid) && (p.2.status == JobStatus.pending))).length) = 0) :
    completionCheck s tid =
      { s with timers := keyInsert (tid ++ "-completion-check") s.timers } := by
  unfold completionCheck
  rw [h]
  simp only [ht, if_true]
  rw [if_neg hp]

theorem startTask_mismatch {s : SchedState} {tid : String}
    {c : TaskCalculationResult} {d : Nat}
    (he : c.sendingSchedule.isEmpty = false)
    (hm : firstMismatchDay c.sendingSchedule = some d) :
    startTask s tid c =
      (cleanupTask s tid, some (StartError.dataIntegrity tid d)) := by
  unfold startTask
  rw [he, hm]
  rfl

theorem startTask_ok {s : SchedState} {tid : String}
    {c : TaskCalculationResult}
    (he : c.sendingSchedule.isEmpty = false)
    (hm : firstMismatchDay c.sendingSchedule = none) :
    startTask s tid c =
      (scheduleAllEmails
        { cleanupTask s tid with
          tasks := mapSet (cleanupTask s tid).tasks tid
            { taskId := tid
              calculation := c
              currentDay := 1
              isRunning := true
              startedAt := true
              completedAt := false
              statistics :=
                { totalSent := 0, totalFailed := 0
                  totalPending := (c.totalEmails : Int)
                  successRate := 0, currentProgress := 0 } }
          emailJobs := (generateEmailJobs tid c.sendingSchedule).foldl
            (fun m j => mapSet m j.id j) (cleanupTask s tid).emailJobs }
        tid, none) := by
  unfold startTask
  rw [he, hm]
  rfl

/-! ## Shared concrete instances -/

/-- Scenario S1: 6 senders × 30 recipients, `P=1`, `R=2`, `H=24`. -/
def s1Params : TaskParams :=
  { sendEmailIds := ["A", "B", "C", "D", "E", "F"]
    receiveEmailCount := 30
    emailsPerHour := 1
    emailsPerTeacherPerDay := 2
    workingHours := 24 }

/-- Scenario S4: one sender, one recipient, `P=1`, `R=1`, `H=1`. -/
def s4Params : TaskParams :=
  { sendEmailIds := ["A"]
    receiveEmailCount := 1
    emailsPerHour := 1
    emailsPerTeacherPerDay := 1
    workingHours := 1 }

/-- The S4 plan. -/
def demoCalc : TaskCalculationResult := calculateTask s4Params

/-- The scheduler right after `startTask("t", demoCalc)`. -/
def demoStart : SchedState := (startTask initState "t" demoCalc).1

/-- The id of S4's single job under task `"t"`. -/
def demoJobId : String := jobId "t" "A" 0 0 0

/-! ## C1 — dispatch outcome versus the backend's reported result -/

/-- Sender `"A"` has a history record of 10 completed sends 10 s ago, so the
per-minute anti-spam limit applies at `now = 60000`. -/
def c1History : List SendRecord :=
  [{ timestamp := 50000, sendEmailId := "A", count := 10 }]

/-- The backend call made for the demo job under that history (the random
coin would have been a success; the anti-spam check preempts it). -/
def c1Send : Except String EmailSendResult × List SendRecord :=
  smtpSendEmail c1History
    { sendEmailId := "A", receiveEmailId := 0
      subject := "subject", content := "content" }
    60000 true "mock-id" 0

/-- The scheduler after the timer fired and the send completed. -/
def c1Final : SchedState :=
  finishDispatch (beginDispatch demoStart demoJobId) demoJobId c1Send.1

/-- C1: the backend *reports an error* for the dispatched job — its promise
resolves with `success := false` and an anti-spam `errorMessage` — yet the
scheduler marks the job `sent`, stamps `sentAt`, records no error message,
and counts it in `totalSent`, because `sendEmail` never inspects
`result.success` and the mock's catch-all means its promise never rejects.
The claimed behaviour (`Failed`, error recorded, `totalFailed` incremented)
does not occur. -/
theorem backend_error_marked_sent :
    c1Send.1 = Except.ok
      { success := false, messageId := none
        errorMessage := some "Anti-spam limit exceeded: 10 emails in last minute" } ∧
    (mapFind c1Final.emailJobs demoJobId).map
        (fun j => (j.status, j.errorMessage, j.sentAt)) =
      some (JobStatus.sent, none, true) ∧
    (mapFind c1Final.tasks "t").map
        (fun t => (t.statistics.totalSent, t.statistics.totalFailed,
          t.statistics.totalPending)) =
      some (1, 0, 0) := by
  refine ⟨by rfl, by decide, by decide⟩

/-! ## C2 — conservation of the statistics counters -/

/-- `totalSent + totalFailed + totalPending` of a task, as the scheduler's
counters record them. -/
def countersSum (s : SchedState) (taskId : String) : Option Int :=
  (mapFind s.tasks taskId).map (fun t =>
    t.statistics.totalSent + t.statistics.totalFailed +
      t.statistics.totalPending)

/-- Number of the task's jobs currently in status `processing`. -/
def processingCount (s : SchedState) (taskId : String) : Int :=
  ((s.emailJobs.filter (fun p =>
    (p.2.taskId == taskId) && (p.2.status == JobStatus.processing))).length : Int)

/-- The interleaving `start; fire`: a dispatch has marked the single job
`processing` and is awaiting the backend. -/
def c2Trace : List Step := [Step.start "t" demoCalc, Step.fire demoJobId]

/-- C2 counterexample: in the reachable state where the single job of task
`"t"` is mid-dispatch (`processing`), the counters still hold
`totalPending = 1`, so `totalSent + totalFailed + totalPending +
totalProcessing = 2` while `totalEmails = 1`: the claimed identity fails
whenever a job is in flight, because the `pending → processing` transition
updates no counter. -/
theorem processing_breaks_claimed_conservation :
    (countersSum (applySteps initState c2Trace) "t").map
        (fun x => x + processingCount (applySteps initState c2Trace) "t") =
      some 2 ∧
    (mapFind (applySteps initState c2Trace).tasks "t").map
        (fun t => (t.calculation.totalEmails : Int)) = some 1 := by
  refine ⟨by decide, by decide⟩

/-! ## C3 — completion-bound formulas of the planner -/

/-- C3 (amended: none needed): for every valid planner input the plan's
`calculatedDays` is `⌈|senders|/R⌉ · ⌈N/(P·H)⌉`, with `groupInfo` exposing
the two factors and `companyDailyCapacity = P · H` (the spec's
`senderDailyCapacity`). -/
theorem calculatedDays_formula (p : TaskParams)
    (hs : p.sendEmailIds ≠ []) (hN : 0 < p.receiveEmailCount)
    (hP : 0 < p.emailsPerHour) (hR : 1 ≤ p.emailsPerTeacherPerDay)
    (hH1 : 1 ≤ p.workingHours) (hH2 : p.workingHours ≤ 24) :
    (calculateTask p).calculatedDays =
        ceilDiv p.sendEmailIds.length p.emailsPerTeacherPerDay *
          ceilDiv p.receiveEmailCount (p.emailsPerHour * p.workingHours) ∧
      (calculateTask p).groupInfo.totalGroups =
        ceilDiv p.sendEmailIds.length p.emailsPerTeacherPerDay ∧
      (calculateTask p).groupInfo.daysPerGroup =
        ceilDiv p.receiveEmailCount (p.emailsPerHour * p.workingHours) ∧
      (calculateTask p).groupInfo.companyDailyCapacity =
        p.emailsPerHour * p.workingHours :=
  ⟨rfl, rfl, rfl, rfl⟩

/-- C3 witness: scenario S1 yields `calculatedDays = 6`, `totalGroups = 3`,
`daysPerGroup = 2`, `senderDailyCapacity = 24`. -/
theorem calculatedDays_formula_witness :
    (calculateTask s1Params).calculatedDays = 6 ∧
    (calculateTask s1Params).groupInfo.totalGroups = 3 ∧
    (calculateTask s1Params).groupInfo.daysPerGroup = 2 ∧
    (calculateTask s1Params).groupInfo.companyDailyCapacity = 24 := by
  obtain ⟨h1, h2, h3, h4⟩ :=
    calculatedDays_formula s1Params (by decide) (by decide) (by decide)
      (by decide) (by decide) (by decide)
  exact ⟨by rw [h1]; decide, by rw [h2]; decide, by rw [h3]; decide,
    by rw [h4]; decide⟩

/-! ## C7 — per-day minute slotting -/

/-- C7 counterexample: with `k = 5`, `P = 3` the second message of hour 1
(overall index 4) is slotted at minute `⌊1/2·60⌋ = 30` — the divisor is the
*hour's own message count* `min(P, remaining) = 2` — whereas the claim's
formula `⌊i/P·60⌋` demands minute 20. -/
theorem hourly_minute_formula_counterexample :
    (generateHourlySendTimes 5 3 24).get? 4 = some (timeLabel 1 30) ∧
      timeLabel 1 (1 * 60 / 3) ≠ timeLabel 1 30 := by
  refine ⟨by decide, by decide⟩

/-- No emails left: no labels, whatever the hour. -/
theorem hourlyTimesFrom_zero (P hour H : Nat) :
    hourlyTimesFrom P hour H 0 = [] := by
  cases H <;> rfl

/-- The hour loop emits one label per email whenever the capacity `P · H`
suffices. -/
theorem hourlyTimesFrom_length (P : Nat) (hP : 0 < P) :
    ∀ H hour k, k ≤ P * H → (hourlyTimesFrom P hour H k).length = k := by
  intro H
  induction H with
  | zero =>
    intro hour k hk
    have : k = 0 := by omega
    subst this
    rfl
  | succ H ih =>
    intro hour k hk
    have hPH : P * (H + 1) = P * H + P := by ring
    match k with
    | 0 => rfl
    | r + 1 =>
      rw [hourlyTimesFrom]
      rw [List.length_append, List.length_map, List.length_range]
      rcases Nat.le_total P (r + 1) with hle | hle
      · rw [Nat.min_eq_left hle, ih (hour + 1) (r + 1 - P) (by omega)]
        omega
      · rw [Nat.min_eq_right hle, Nat.sub_self, hourlyTimesFrom_zero]
        rfl

/-- Index `h · P + i` of the emitted list is the `i`-th slot of working hour
`hour + h`, at minute `⌊i · 60 / m⌋` where `m = min P (k - h·P)` is that
hour's own message count. -/
theorem hourlyTimesFrom_get (P : Nat) (hP : 0 < P) :
    ∀ H hour k, k ≤ P * H → ∀ h i, i < P → h * P + i < k →
      (hourlyTimesFrom P hour H k).get? (h * P + i) =
        some (timeLabel (hour + h) (i * 60 / min P (k - h * P))) := by
  intro H
  induction H with
  | zero =>
    intro hour k hk h i _ hik
    omega
  | succ H ih =>
    intro hour k hk h i hiP hik
    have hPH : P * (H + 1) = P * H + P := by ring
    match k, hik with
    | r + 1, hik =>
      rw [hourlyTimesFrom]
      match h with
      | 0 =>
        have hi : i < min P (r + 1) := by omega
        rw [show (0 : Nat) * P + i = i from by omega]
        rw [List.get?_append (by simpa using hi), List.get?_map,
          List.get?_range hi]
        show some (timeLabel hour (i * 60 / min P (r + 1))) = _
        rw [show (0 : Nat) * P = 0 from by omega, Nat.sub_zero]
        norm_num
      | h' + 1 =>
        have hh1 : (h' + 1) * P = h' * P + P := by ring
        have hPle : P ≤ r + 1 := by omega
        have hmin : min P (r + 1) = P := Nat.min_eq_left hPle
        rw [hmin]
        rw [List.get?_append_right
          (by simp only [List.length_map, List.length_range]; omega)]
        simp only [List.length_map, List.length_range]
        rw [show (h' + 1) * P + i - P = h' * P + i from by omega]
        rw [ih (hour + 1) (r + 1 - P) (by omega) h' i hiP (by omega)]
        rw [show hour + 1 + h' = hour + (h' + 1) from by omega]
        rw [show r + 1 - P - h' * P = r + 1 - (h' + 1) * P from by omega]

/-- C7 amended: for `0 < P` and `k ≤ P·H` the slotting emits exactly `k`
labels `"HH:MM"`, filling hour-by-hour with up to `P` per hour; the `i`-th
message of hour `h` (overall index `h·P + i`) gets
`minute = ⌊i/m · 60⌋` where `m = min(P, k − h·P)` is the number of messages
that hour actually carries (for every full hour `m = P`, so the claim's
`⌊i/P · 60⌋` holds there; the final partial hour divides by its own count). -/
theorem hourly_send_times_spec (k P H : Nat) (hP : 0 < P) (hk : k ≤ P * H) :
    (generateHourlySendTimes k P H).length = k ∧
    ∀ h i, i < P → h * P + i < k →
      (generateHourlySendTimes k P H).get? (h * P + i) =
        some (timeLabel h (i * 60 / min P (k - h * P))) := by
  constructor
  · exact hourlyTimesFrom_length P hP H 0 k hk
  · intro h i hiP hik
    have := hourlyTimesFrom_get P hP H 0 k hk h i hiP hik
    rwa [Nat.zero_add] at this

/-- C7 witness: `k = 5`, `P = 3`, `H = 24` — 5 labels; hour 1's second
message sits at minute `⌊1·60/2⌋ = 30`. -/
theorem hourly_send_times_spec_witness :
    (generateHourlySendTimes 5 3 24).length = 5 ∧
    (generateHourlySendTimes 5 3 24).get? (1 * 3 + 1) =
      some (timeLabel 1 (1 * 60 / min 3 (5 - 1 * 3))) := by
  obtain ⟨h1, h2⟩ := hourly_send_times_spec 5 3 24 (by decide) (by decide)
  exact ⟨h1, h2 1 1 (by decide) (by decide)⟩

/-! ## C8 — sender grouping -/

/-- C8 counterexample: with one sender and `R = 2` the grouping returns the
single group `["A"]` of size 1, not a group padded by wrapping to size
`R = 2` as the claim states. -/
theorem sender_groups_not_all_size_R :
    createSenderGroups ["A"] 2 = [["A"]] ∧
      ¬ ∀ g ∈ createSenderGroups ["A"] 2, g.length = 2 := by
  refine ⟨by decide, by decide⟩

/-- C8 amended: when `R < |senders|` the planner builds
`⌈|senders|/R⌉` groups of exactly `R` members each, member `i` of group
`gi` being `senders[(gi·R + i) mod |senders|]` (input order, the tail group
wrapping to the front); when `|senders| ≤ R` it returns the single group of
all the senders, whose size is `|senders|`, not `R`. -/
theorem createSenderGroups_spec (senders : List String) (R : Nat)
    (hs : senders ≠ []) (hR : 1 ≤ R) :
    (senders.length ≤ R → createSenderGroups senders R = [senders]) ∧
    (R < senders.length →
      (createSenderGroups senders R).length = ceilDiv senders.length R ∧
      ∀ gi, gi < ceilDiv senders.length R →
        ((createSenderGroups senders R).getD gi []).length = R ∧
        ∀ i, i < R →
          ((createSenderGroups senders R).getD gi []).getD i "" =
            senders.getD ((gi * R + i) % senders.length) "") := by
  constructor
  · intro hle
    unfold createSenderGroups
    rw [if_pos hle]
  · intro hlt
    have hgroups : createSenderGroups senders R =
        (List.range (ceilDiv senders.length R)).map (fun groupIndex =>
          (List.range R).map (fun i =>
            senders.getD ((groupIndex * R + i) % senders.length) "")) := by
      unfold createSenderGroups
      rw [if_neg (by omega)]
    rw [hgroups]
    refine ⟨by rw [List.length_map, List.length_range], ?_⟩
    intro gi hgi
    have houter : ((List.range (ceilDiv senders.length R)).map
        (fun groupIndex => (List.range R).map (fun i =>
          senders.getD ((groupIndex * R + i) % senders.length) ""))).getD gi []
        = (List.range R).map (fun i =>
            senders.getD ((gi * R + i) % senders.length) "") := by
      rw [List.getD_eq_getElem _ _
        (by rw [List.length_map, List.length_range]; exact hgi)]
      rw [List.getElem_map, List.getElem_range]
    rw [houter]
    refine ⟨by rw [List.length_map, List.length_range], ?_⟩
    intro i hi
    rw [List.getD_eq_getElem _ _
      (by rw [List.length_map, List.length_range]; exact hi)]
    rw [List.getElem_map, List.getElem_range]

/-- C8 witness: 6 senders, `R = 4` — two groups; member 2 of group 1 is
`senders[(1·4+2) mod 6] = "A"` (the tail group wraps). -/
theorem createSenderGroups_spec_witness :
    (createSenderGroups ["A", "B", "C", "D", "E", "F"] 4).length =
        ceilDiv 6 4 ∧
      ((createSenderGroups ["A", "B", "C", "D", "E", "F"] 4).getD 1 []).getD
          2 "" =
        (["A", "B", "C", "D", "E", "F"] : List String).getD ((1 * 4 + 2) % 6)
          "" := by
  obtain ⟨h1, h2⟩ :=
    (createSenderGroups_spec ["A", "B", "C", "D", "E", "F"] 4 (by decide)
      (by decide)).2 (by decide)
  exact ⟨h1, (h2 1 (by decide)).2 2 (by decide)⟩

/-! ## C2 amended — conservation of `totalSent + totalFailed + totalPending` -/

/-- The counter identity a single task record satisfies. -/
def consTask (t : SchedulerTask) : Prop :=
  t.statistics.totalSent + t.statistics.totalFailed +
      t.statistics.totalPending = (t.calculation.totalEmails : Int)

/-- Every task entry of a task map satisfies the counter identity. -/
def consList (l : List (String × SchedulerTask)) : Prop :=
  ∀ kv ∈ l, consTask kv.2

theorem consList_filter {l : List (String × SchedulerTask)}
    (p : String × SchedulerTask → Bool) (h : consList l) :
    consList (l.filter p) :=
  fun kv hm => h kv (List.mem_of_mem_filter hm)

theorem consList_mapSet {l : List (String × SchedulerTask)} (k : String)
    (v : SchedulerTask) (h : consList l) (hv : consTask v) :
    consList (mapSet l k v) := by
  intro kv hm
  unfold mapSet at hm
  rcases List.mem_cons.mp hm with h1 | h2
  · rw [h1]; exact hv
  · exact h kv (List.mem_of_mem_filter h2)

theorem consList_mapUpdate {l : List (String × SchedulerTask)} (k : String)
    (f : SchedulerTask → SchedulerTask) (h : consList l)
    (hf : ∀ t, consTask t → consTask (f t)) :
    consList (mapUpdate l k f) := by
  intro kv hm
  unfold mapUpdate at hm
  obtain ⟨p, hp, hkv⟩ := List.mem_map.mp hm
  by_cases hc : (p.1 == k) = true
  · rw [if_pos hc] at hkv
    rw [← hkv]
    exact hf p.2 (h p hp)
  · rw [if_neg hc] at hkv
    rw [← hkv]
    exact h p hp

theorem consTask_setRunning (t : SchedulerTask) (b : Bool)
    (h : consTask t) : consTask { t with isRunning := b } := h

theorem consTask_complete (t : SchedulerTask) (h : consTask t) :
    consTask { t with isRunning := false, completedAt := true } := h

/-- A terminal dispatch outcome moves one unit between counters; the sum is
unchanged, and `updateTaskStatistics` only rewrites the derived rates. -/
theorem consTask_finish (r : Except String EmailSendResult)
    (t : SchedulerTask) (h : consTask t) :
    consTask (updateTaskStatistics
      { t with statistics := statsOutcome r t.statistics }) := by
  unfold consTask updateTaskStatistics statsOutcome at *
  cases r <;> simp <;> omega

theorem tasks_clearTaskTimers (s : SchedState) (tid : String) :
    (clearTaskTimers s tid).tasks = s.tasks := rfl

theorem tasks_scheduleAllEmails (s : SchedState) (tid : String) :
    (scheduleAllEmails s tid).tasks = s.tasks := by
  unfold scheduleAllEmails
  cases h : mapFind s.tasks tid with
  | none => rfl
  | some t => cases ht : t.isRunning <;> simp [ht]

theorem consList_scheduleAllEmails (s : SchedState) (tid : String)
    (h : consList s.tasks) : consList (scheduleAllEmails s tid).tasks := by
  rw [tasks_scheduleAllEmails]
  exact h

theorem consList_cleanupTask (s : SchedState) (tid : String)
    (h : consList s.tasks) : consList (cleanupTask s tid).tasks := by
  have he : (cleanupTask s tid).tasks =
      s.tasks.filter (fun p => !(p.1 == tid)) := rfl
  rw [he]
  exact consList_filter _ h

theorem consList_startTask (s : SchedState) (tid : String)
    (c : TaskCalculationResult) (h : consList s.tasks) :
    consList ((startTask s tid c).1).tasks := by
  have hclean : consList (cleanupTask s tid).tasks :=
    consList_cleanupTask s tid h
  unfold startTask
  cases he : c.sendingSchedule.isEmpty with
  | true => exact hclean
  | false =>
    cases hm : firstMismatchDay c.sendingSchedule with
    | some d => exact hclean
    | none =>
      apply consList_scheduleAllEmails
      exact consList_mapSet _ _ hclean (by unfold consTask; simp)

theorem consList_applyStep (s : SchedState) (st : Step)
    (h : consList s.tasks) : consList (applyStep s st).tasks := by
  cases st with
  | start tid c => exact consList_startTask s tid c h
  | pause tid =>
    show consList (pauseTask s tid).tasks
    unfold pauseTask
    cases hm : mapFind s.tasks tid with
    | none => exact h
    | some t =>
      exact consList_mapUpdate _ _ h
        (fun t ht => consTask_setRunning t false ht)
  | resume tid =>
    show consList (resumeTask s tid).tasks
    unfold resumeTask
    cases hm : mapFind s.tasks tid with
    | none => exact h
    | some t =>
      dsimp only
      cases ht : t.isRunning with
      | true => exact h
      | false =>
        apply consList_scheduleAllEmails
        exact consList_mapUpdate _ _ h
          (fun t ht => consTask_setRunning t true ht)
  | stop tid => exact consList_cleanupTask s tid h
  | fire jid =>
    show consList (beginDispatch s jid).tasks
    unfold beginDispatch
    cases hj : mapFind s.emailJobs jid with
    | none => exact h
    | some job =>
      dsimp only
      cases hm : mapFind s.tasks job.taskId with
      | none => exact h
      | some t =>
        dsimp only
        cases ht : t.isRunning with
        | true => exact h
        | false => exact h
  | complete jid r =>
    show consList (finishDispatch s jid r).tasks
    unfold finishDispatch
    cases hj : mapFind s.emailJobs jid with
    | none => exact h
    | some job =>
      dsimp only
      cases hs : (job.status == JobStatus.processing) with
      | false => exact h
      | true =>
        exact consList_mapUpdate _ _ h (fun t ht => consTask_finish r t ht)
  | check tid =>
    show consList (completionCheck s tid).tasks
    unfold completionCheck
    cases hm : mapFind s.tasks tid with
    | none => exact h
    | some t =>
      try dsimp only
      cases ht : t.isRunning with
      | false => exact h
      | true =>
        by_cases hp : ((s.emailJobs.filter (fun p =>
            (p.2.taskId == tid) && (p.2.status == JobStatus.pending))).length) = 0
        · rw [if_pos hp]
          unfold completeTask
          cases hm2 : mapFind s.tasks tid with
          | none => exact h
          | some _ =>
            exact consList_mapUpdate _ _ h (fun t ht => consTask_complete t ht)
        · rw [if_neg hp]
          exact h
  | reset => intro kv hm; cases hm

theorem mapFind_some_mem {α : Type} {m : List (String × α)} {k : String}
    {v : α} (h : mapFind m k = some v) : ∃ kk, (kk, v) ∈ m := by
  unfold mapFind at h
  cases hf : m.find? (fun p => p.1 == k) with
  | none => rw [hf] at h; cases h
  | some p =>
    rw [hf] at h
    have hv : p.2 = v := by simpa using h
    refine ⟨p.1, ?_⟩
    have hp := List.mem_of_find?_eq_some hf
    have hpe : (p.1, v) = p := by rw [← hv]
    rwa [hpe]

/-- Every interleaving preserves the counter identity on every task. -/
theorem consList_applySteps (tr : List Step) :
    ∀ s, consList s.tasks → consList (applySteps s tr).tasks := by
  induction tr with
  | nil => intro s hs; exact hs
  | cons st tr ih =>
    intro s hs
    exact ih (applyStep s st) (consList_applyStep s st hs)

/-- C2 amended: in every state reachable by any interleaving of scheduler
events from a fresh scheduler, every task satisfies
`totalSent + totalFailed + totalPending = totalEmails` — the three mutable
counters alone balance the plan's total; a job in `processing` is still
counted in `totalPending` (the `pending → processing` transition updates no
counter), so adding `totalProcessing` overshoots by the number of in-flight
jobs. -/
theorem conservation_of_counters (tr : List Step) (tid : String)
    (t : SchedulerTask)
    (h : mapFind (applySteps initState tr).tasks tid = some t) :
    t.statistics.totalSent + t.statistics.totalFailed +
      t.statistics.totalPending = (t.calculation.totalEmails : Int) := by
  have hinit : consList initState.tasks := by intro kv hm; cases hm
  obtain ⟨kk, hmem⟩ := mapFind_some_mem h
  exact consList_applySteps tr initState hinit (kk, t) hmem

/-- A placeholder record for total lookups in witnesses. -/
def dummyTask : SchedulerTask :=
  { taskId := ""
    calculation := demoCalc
    currentDay := 0
    isRunning := false
    startedAt := false
    completedAt := false
    statistics :=
      { totalSent := 0, totalFailed := 0, totalPending := 0
        successRate := 0, currentProgress := 0 } }

/-- The task record of `"t"` mid-dispatch in the `start; fire` interleaving. -/
def c2WitnessTask : SchedulerTask :=
  (mapFind (applySteps initState c2Trace).tasks "t").getD dummyTask

/-- C2 witness: the amended invariant, instantiated in the mid-dispatch
state of the counterexample's own interleaving. -/
theorem conservation_of_counters_witness :
    c2WitnessTask.statistics.totalSent + c2WitnessTask.statistics.totalFailed +
      c2WitnessTask.statistics.totalPending =
      (c2WitnessTask.calculation.totalEmails : Int) :=
  conservation_of_counters c2Trace "t" c2WitnessTask (by rfl)

/-! ## Association-list facts shared by the scheduler claims -/

theorem mem_mapSet {α : Type} {m : List (String × α)} {k : String} {v : α}
    {kv : String × α} (h : kv ∈ mapSet m k v) : kv = (k, v) ∨ kv ∈ m := by
  unfold mapSet at h
  rcases List.mem_cons.mp h with h1 | h2
  · exact Or.inl h1
  · exact Or.inr (List.mem_of_mem_filter h2)

theorem mem_mapUpdate {α : Type} {m : List (String × α)} {k : String}
    {f : α → α} {kv : String × α} (h : kv ∈ mapUpdate m k f) :
    ∃ p ∈ m, (kv = p ∧ (p.1 == k) = false) ∨
      (kv = (p.1, f p.2) ∧ (p.1 == k) = true) := by
  unfold mapUpdate at h
  obtain ⟨p, hp, hkv⟩ := List.mem_map.mp h
  refine ⟨p, hp, ?_⟩
  by_cases hc : (p.1 == k) = true
  · rw [if_pos hc] at hkv
    exact Or.inr ⟨hkv.symm, hc⟩
  · rw [if_neg hc] at hkv
    exact Or.inl ⟨hkv.symm, by simpa using hc⟩

theorem mapFind_some_entry {α : Type} {m : List (String × α)} {k : String}
    {v : α} (h : mapFind m k = some v) : ∃ p ∈ m, p.1 = k ∧ p.2 = v := by
  unfold mapFind at h
  cases hf : m.find? (fun p => p.1 == k) with
  | none => rw [hf] at h; cases h
  | some p =>
    rw [hf] at h
    refine ⟨p, List.mem_of_find?_eq_some hf, ?_, by simpa using h⟩
    have := List.find?_some hf
    simpa using this

theorem mapFind_filter_self {α : Type} (m : List (String × α)) (k : String) :
    mapFind (m.filter (fun p => !(p.1 == k))) k = none := by
  unfold mapFind
  have : (m.filter (fun p => !(p.1 == k))).find? (fun p => p.1 == k) = none := by
    rw [List.find?_eq_none]
    intro x hx
    have := (List.mem_filter.mp hx).2
    simp at this
    simp [this]
  rw [this]
  rfl

theorem mapFind_filter_of_ne {α : Type} (m : List (String × α))
    (p : String × α → Bool) (k : String)
    (hp : ∀ kv ∈ m, kv.1 = k → p kv = true) :
    mapFind (m.filter p) k = mapFind m k := by
  induction m with
  | nil => rfl
  | cons x m ih =>
    have htail : ∀ kv ∈ m, kv.1 = k → p kv = true := fun kv hm he =>
      hp kv (List.mem_cons_of_mem _ hm) he
    by_cases hk : (x.1 == k) = true
    · have hpx : p x = true := hp x (List.mem_cons_self _ _) (by simpa using hk)
      rw [List.filter_cons_of_pos hpx]
      unfold mapFind
      rw [@List.find?_cons_of_pos _ (fun q => q.1 == k) x (List.filter p m) hk,
        @List.find?_cons_of_pos _ (fun q => q.1 == k) x m hk]
    · by_cases hpx : p x = true
      · rw [List.filter_cons_of_pos hpx]
        unfold mapFind
        rw [@List.find?_cons_of_neg _ (fun q => q.1 == k) x (List.filter p m)
            (by simpa using hk),
          @List.find?_cons_of_neg _ (fun q => q.1 == k) x m (by simpa using hk)]
        exact ih htail
      · rw [List.filter_cons_of_neg (by simpa using hpx)]
        unfold mapFind
        rw [@List.find?_cons_of_neg _ (fun q => q.1 == k) x m (by simpa using hk)]
        exact ih htail

theorem mapFind_unique {α : Type} {m : List (String × α)}
    (hnd : (m.map Prod.fst).Nodup) {k : String} {v : α}
    (h : mapFind m k = some v) : ∀ p ∈ m, p.1 = k → p.2 = v := by
  induction m with
  | nil => intro p hp; cases hp
  | cons x m ih =>
    intro p hp hpk
    rw [List.map_cons, List.nodup_cons] at hnd
    by_cases hx : (x.1 == k) = true
    · have hv : x.2 = v := by
        unfold mapFind at h
        rw [@List.find?_cons_of_pos _ (fun q => q.1 == k) x m hx] at h
        simpa using h
      rcases List.mem_cons.mp hp with h1 | h2
      · rw [h1]; exact hv
      · exfalso
        apply hnd.1
        have : p.1 ∈ m.map Prod.fst := List.mem_map_of_mem _ h2
        rw [hpk] at this
        rw [show x.1 = k by simpa using hx]
        exact this
    · rcases List.mem_cons.mp hp with h1 | h2
      · exfalso
        apply hx
        rw [← h1]
        simp [hpk]
      · refine ih hnd.2 ?_ p h2 hpk
        unfold mapFind at h ⊢
        rwa [@List.find?_cons_of_neg _ (fun q => q.1 == k) x m hx] at h

theorem keys_mapUpdate {α : Type} (m : List (String × α)) (k : String)
    (f : α → α) : (mapUpdate m k f).map Prod.fst = m.map Prod.fst := by
  induction m with
  | nil => rfl
  | cons x xs ih =>
    unfold mapUpdate at ih ⊢
    rw [List.map_cons, List.map_cons, List.map_cons]
    by_cases hx : (x.1 == k) = true
    · rw [if_pos hx]
      rw [show ((x.1, f x.2) : String × α).1 = x.1 from rfl]
      rw [ih]
    · rw [if_neg hx, ih]

theorem nodupKeys_mapUpdate {α : Type} {m : List (String × α)}
    {k : String} {f : α → α} (h : (m.map Prod.fst).Nodup) :
    ((mapUpdate m k f).map Prod.fst).Nodup := by
  rw [keys_mapUpdate]
  exact h

theorem nodupKeys_filter {α : Type} {m : List (String × α)}
    (p : String × α → Bool) (h : (m.map Prod.fst).Nodup) :
    ((m.filter p).map Prod.fst).Nodup :=
  List.Nodup.sublist (List.Sublist.map Prod.fst (List.filter_sublist m)) h

theorem nodupKeys_mapSet {α : Type} {m : List (String × α)} (k : String)
    (v : α) (h : (m.map Prod.fst).Nodup) :
    ((mapSet m k v).map Prod.fst).Nodup := by
  unfold mapSet
  rw [List.map_cons]
  rw [List.nodup_cons]
  refine ⟨?_, nodupKeys_filter _ h⟩
  intro hk
  obtain ⟨kv, hkv, hfst⟩ := List.mem_map.mp hk
  have := (List.mem_filter.mp hkv).2
  rw [hfst] at this
  simp at this

theorem nodupKeys_foldl_mapSet {jobs : List EmailJob}
    {m0 : List (String × EmailJob)} (h : (m0.map Prod.fst).Nodup) :
    (((jobs.foldl (fun m j => mapSet m j.id j) m0)).map Prod.fst).Nodup := by
  induction jobs generalizing m0 with
  | nil => exact h
  | cons j js ih => exact ih (nodupKeys_mapSet _ _ h)

theorem mem_foldl_mapSet {jobs : List EmailJob}
    {m0 : List (String × EmailJob)} {kv : String × EmailJob}
    (h : kv ∈ jobs.foldl (fun m j => mapSet m j.id j) m0) :
    kv ∈ m0 ∨ ∃ j ∈ jobs, kv = (j.id, j) := by
  induction jobs generalizing m0 with
  | nil => exact Or.inl h
  | cons j js ih =>
    rcases ih h with h1 | ⟨j', hj', he⟩
    · rcases mem_mapSet h1 with h2 | h3
      · exact Or.inr ⟨j, List.mem_cons_self _ _, h2⟩
      · exact Or.inl h3
    · exact Or.inr ⟨j', List.mem_cons_of_mem _ hj', he⟩

/-! ## C6 — start-time data-integrity failure -/

theorem firstMismatchDay_isSome (sched : List DaySchedule)
    (h : ∃ d ∈ sched, ∃ se ∈ d.sendEmails,
      se.receiveEmailIds.length ≠ se.plannedSendTime.length) :
    ∃ day, firstMismatchDay sched = some day := by
  obtain ⟨d, hd, se, hse, hne⟩ := h
  obtain ⟨i, hi⟩ := List.mem_iff_get?.mp hd
  have hpred : ∃ x ∈ sched.enum, ((fun di : Nat × DaySchedule =>
      di.2.sendEmails.any (fun se =>
        !(se.receiveEmailIds.length == se.plannedSendTime.length))) x) = true := by
    refine ⟨(i, d), List.mk_mem_enum_iff_get?.mpr hi, ?_⟩
    simp only [List.any_eq_true]
    exact ⟨se, hse, by simpa using hne⟩
  rw [← List.find?_isSome] at hpred
  obtain ⟨x, hx⟩ := Option.isSome_iff_exists.mp hpred
  refine ⟨x.1 + 1, ?_⟩
  unfold firstMismatchDay
  rw [hx]
  rfl

/-- C6: a plan containing any `(day, sender)` entry whose recipient and time
lists disagree in length makes `startTask` fail with the data-integrity
error before creating anything: the returned state (mutations up to the
throw) carries no task record, no job and no timer for `taskId`; the prior
state of `taskId` was wiped by the leading cleanup, and the plan is not
repaired. The job hypothesis is the scheduler's key discipline: a job whose
`taskId` field is `tid` is stored under a key that starts with `tid`. -/
theorem startTask_data_integrity (s : SchedState) (tid : String)
    (c : TaskCalculationResult)
    (hmm : ∃ d ∈ c.sendingSchedule, ∃ se ∈ d.sendEmails,
      se.receiveEmailIds.length ≠ se.plannedSendTime.length)
    (hwf : ∀ kv ∈ s.emailJobs, kv.2.taskId = tid →
      strStartsWith kv.1 tid = true) :
    (∃ day, (startTask s tid c).2 = some (StartError.dataIntegrity tid day)) ∧
    mapFind ((startTask s tid c).1).tasks tid = none ∧
    (∀ kv ∈ ((startTask s tid c).1).emailJobs, kv.2.taskId ≠ tid) ∧
    (∀ k ∈ ((startTask s tid c).1).timers, strStartsWith k tid = false) ∧
    (∀ k ∈ ((startTask s tid c).1).jobTimers, strStartsWith k tid = false) := by
  obtain ⟨day, hday⟩ := firstMismatchDay_isSome c.sendingSchedule hmm
  have hne : c.sendingSchedule.isEmpty = false := by
    obtain ⟨d, hd, _⟩ := hmm
    cases hsched : c.sendingSchedule with
    | nil => rw [hsched] at hd; cases hd
    | cons a l => rfl
  have hres : startTask s tid c =
      (cleanupTask s tid, some (StartError.dataIntegrity tid day)) := by
    unfold startTask
    rw [hne, hday]
    rfl
  rw [hres]
  refine ⟨⟨day, rfl⟩, ?_, ?_, ?_, ?_⟩
  · exact mapFind_filter_self _ tid
  · intro kv hkv heq
    have hm := List.mem_filter.mp hkv
    have hsw := hwf kv hm.1 heq
    have := hm.2
    rw [hsw] at this
    simp at this
  · intro k hk
    have := (List.mem_filter.mp hk).2
    simpa using this
  · intro k hk
    have := (List.mem_filter.mp hk).2
    simpa using this

/-- A plan whose single day has one recipient but an empty time list. -/
def badCalc : TaskCalculationResult :=
  { totalEmails := 1
    calculatedDays := 1
    dailySendLimit := 1
    dailyReceiveLimit := 1
    effectiveDailyRate := 1
    sendingSchedule :=
      [{ day := 1
         sendEmails :=
           [{ sendEmailId := "A", receiveEmailIds := [0], plannedSendTime := [] }]
         totalEmailsForDay := 1 }]
    statusMatrix := ∅
    groupInfo :=
      { totalGroups := 1, daysPerGroup := 1, companiesPerGroup := 1
        companyDailyCapacity := 1, currentGroupDailyCapacity := 1 } }

/-- C6 witness: restarting `"t"` (which holds a live job from `demoStart`)
with the corrupt plan fails and leaves nothing for `"t"` behind. -/
theorem startTask_data_integrity_witness :
    mapFind ((startTask demoStart "t" badCalc).1).tasks "t" = none := by
  exact (startTask_data_integrity demoStart "t" badCalc (by decide)
    (by decide)).2.1

/-! ## C10 — frame of `stopTask` -/

/-- Two prefixes of the same string are comparable, so a key that starts
with `p` cannot also start with `a` when `a` and `p` are prefix-incomparable. -/
theorem startsWith_false_of_incomp {k a p : String}
    (h1 : strStartsWith p a = false) (h2 : strStartsWith a p = false)
    (hk : strStartsWith k p = true) : strStartsWith k a = false := by
  unfold strStartsWith at *
  by_contra hcon
  have ha : a.data <+: k.data := by
    rw [← List.isPrefixOf_iff_prefix]
    revert hcon
    cases a.data.isPrefixOf k.data <;> simp
  have hp : p.data <+: k.data := by
    rw [← List.isPrefixOf_iff_prefix]
    exact hk
  rcases List.prefix_or_prefix_of_prefix ha hp with hc | hc
  · rw [← List.isPrefixOf_iff_prefix] at hc
    rw [hc] at h1
    cases h1
  · rw [← List.isPrefixOf_iff_prefix] at hc
    rw [hc] at h2
    cases h2

/-- Every string is a prefix of itself extended. -/
theorem strStartsWith_append (x y : String) :
    strStartsWith (x ++ y) x = true := by
  unfold strStartsWith
  rw [List.isPrefixOf_iff_prefix]
  show x.data <+: (x ++ y).data
  rw [String.data_append]
  exact List.prefix_append _ _

/-- C10 amended: provided `a` and `b ++ "-"` are prefix-incomparable — which
fails exactly in the id-prefix collisions of the counterexample — and task
`b`'s jobs observe the key discipline (`taskId = b` stored under a key
starting with `b ++ "-"`), `stopTask a` leaves `b`'s runtime entry, all of
`b`'s jobs, and every timer keyed under `b ++ "-"` untouched, deletes no
foreign jobs into existence (the job map only shrinks), and removes `a`'s
runtime. -/
theorem stopTask_frame (s : SchedState) (a b : String)
    (h1 : strStartsWith (b ++ "-") a = false)
    (h2 : strStartsWith a (b ++ "-") = false)
    (hwfJ : ∀ kv ∈ s.emailJobs, kv.2.taskId = b →
      strStartsWith kv.1 (b ++ "-") = true) :
    mapFind (stopTask s a).tasks b = mapFind s.tasks b ∧
    (∀ kv ∈ s.emailJobs, kv.2.taskId = b → kv ∈ (stopTask s a).emailJobs) ∧
    (∀ kv ∈ (stopTask s a).emailJobs, kv ∈ s.emailJobs) ∧
    (∀ k ∈ s.timers, strStartsWith k (b ++ "-") = true →
      k ∈ (stopTask s a).timers) ∧
    (∀ k ∈ s.jobTimers, strStartsWith k (b ++ "-") = true →
      k ∈ (stopTask s a).jobTimers) ∧
    mapFind (stopTask s a).tasks a = none := by
  have hab : b ≠ a := by
    intro he
    rw [he] at h1
    rw [strStartsWith_append] at h1
    cases h1
  refine ⟨?_, ?_, ?_, ?_, ?_, ?_⟩
  · exact mapFind_filter_of_ne s.tasks _ b
      (fun kv hm he => by
        have : ¬ (kv.1 == a) = true := by
          rw [he]
          simpa using hab
        simpa using this)
  · intro kv hm heq
    show kv ∈ s.emailJobs.filter (fun p => !(strStartsWith p.1 a))
    refine List.mem_filter.mpr ⟨hm, ?_⟩
    rw [startsWith_false_of_incomp h1 h2 (hwfJ kv hm heq)]
    rfl
  · intro kv hm
    exact List.mem_of_mem_filter hm
  · intro k hk hsw
    show k ∈ s.timers.filter (fun x => !(strStartsWith x a))
    refine List.mem_filter.mpr ⟨hk, ?_⟩
    rw [startsWith_false_of_incomp h1 h2 hsw]
    rfl
  · intro k hk hsw
    show k ∈ s.jobTimers.filter (fun x => !(strStartsWith x a))
    refine List.mem_filter.mpr ⟨hk, ?_⟩
    rw [startsWith_false_of_incomp h1 h2 hsw]
    rfl
  · exact mapFind_filter_self _ a

/-- Tasks `"a"` and `"ab"` both running, one job each. -/
def prefixPairState : SchedState :=
  (startTask (startTask initState "a" demoCalc).1 "ab" demoCalc).1

/-- C10 counterexample: `"a"` and `"ab"` are distinct task ids, both present,
yet `stopTask "a"` deletes task `"ab"`'s job (its key `"ab-A-0-0-0"` begins
with `"a"`) while leaving `"ab"`'s runtime entry in place — task B's state is
not unchanged, refuting the claim for prefix-related ids. -/
theorem stopTask_prefix_collision :
    (mapFind prefixPairState.emailJobs "ab-A-0-0-0").map (·.taskId) =
      some "ab" ∧
    mapFind (stopTask prefixPairState "a").emailJobs "ab-A-0-0-0" = none ∧
    (mapFind (stopTask prefixPairState "a").tasks "ab").isSome = true := by
  refine ⟨by decide, by decide, by decide⟩

/-- Tasks `"taskA"` and `"taskB"`: prefix-incomparable ids. -/
def disjointPairState : SchedState :=
  (startTask (startTask initState "taskA" demoCalc).1 "taskB" demoCalc).1

/-- C10 witness: stopping `"taskA"` preserves `"taskB"`'s runtime lookup and
removes `"taskA"`'s. -/
theorem stopTask_frame_witness :
    mapFind (stopTask disjointPairState "taskA").tasks "taskB" =
      mapFind disjointPairState.tasks "taskB" ∧
    mapFind (stopTask disjointPairState "taskA").tasks "taskA" = none := by
  obtain ⟨ha, _, _, _, _, hb⟩ :=
    stopTask_frame disjointPairState "taskA" "taskB" (by decide) (by decide)
      (by decide)
  exact ⟨ha, hb⟩

/-! ## C9 — pause blocks `pending → processing` -/

/-- The steps that can revive task `tid`: its own `resumeTask` and a
re-`startTask` (a restart supersedes the pause lifecycle just as resume
does). -/
def isRevivalOf (tid : String) : Step → Bool
  | .resume t => t == tid
  | .start t _ => t == tid
  | _ => false

/-- Inductive invariant between a pause and the next revival: job keys are
unique, every task entry keyed `tid` is not running, and every `processing`
job of `tid` was already `processing` (under the same key) in the base
state. -/
def c9Inv (base : SchedState) (tid : String) (s : SchedState) : Prop :=
  (s.emailJobs.map Prod.fst).Nodup ∧
  (∀ kv ∈ s.tasks, kv.1 = tid → kv.2.isRunning = false) ∧
  (∀ kv ∈ s.emailJobs, kv.2.taskId = tid →
    kv.2.status = JobStatus.processing →
    ∃ kv0 ∈ base.emailJobs, kv0.1 = kv.1 ∧
      kv0.2.status = JobStatus.processing)

theorem jobs_scheduleAllEmails (s : SchedState) (tid : String) :
    (scheduleAllEmails s tid).emailJobs = s.emailJobs := by
  unfold scheduleAllEmails
  cases h : mapFind s.tasks tid with
  | none => rfl
  | some t => cases ht : t.isRunning <;> simp [ht]

theorem generateEmailJobs_taskId {tid : String} {sched : List DaySchedule}
    {j : EmailJob} (h : j ∈ generateEmailJobs tid sched) : j.taskId = tid := by
  unfold generateEmailJobs at h
  obtain ⟨di, _, h2⟩ := List.mem_flatMap.mp h
  obtain ⟨se, _, h3⟩ := List.mem_flatMap.mp h2
  obtain ⟨ei, _, h4⟩ := List.mem_map.mp h3
  rw [← h4]
  unfold mkJob
  cases hse : se.plannedSendTime[ei.1]? with
  | none => rfl
  | some t => by_cases ht : t = "" <;> simp [ht]

theorem applyOutcome_status (r : Except String EmailSendResult)
    (j : EmailJob) : (applyOutcome r j).status ≠ JobStatus.processing := by
  cases r <;> simp [applyOutcome]

theorem applyOutcome_taskId (r : Except String EmailSendResult)
    (j : EmailJob) : (applyOutcome r j).taskId = j.taskId := by
  cases r <;> rfl

theorem c9Inv_of_eq_fields {base : SchedState} {tid : String}
    {s s' : SchedState} (hjobs : s'.emailJobs = s.emailJobs)
    (htasks : s'.tasks = s.tasks) (h : c9Inv base tid s) :
    c9Inv base tid s' :=
  ⟨by rw [hjobs]; exact h.1, by rw [htasks]; exact h.2.1,
   by rw [hjobs]; exact h.2.2⟩

theorem c9Inv_cleanup (base : SchedState) (tid other : String)
    {s : SchedState} (h : c9Inv base tid s) :
    c9Inv base tid (cleanupTask s other) := by
  obtain ⟨hnd, hrun, hproc⟩ := h
  refine ⟨nodupKeys_filter _ hnd, ?_, ?_⟩
  · intro kv hm he
    exact hrun kv (List.mem_of_mem_filter hm) he
  · intro kv hm ht hs
    exact hproc kv (List.mem_of_mem_filter hm) ht hs

theorem c9Inv_applyStep (base : SchedState) (tid : String) (s : SchedState)
    (st : Step) (hst : isRevivalOf tid st = false) (h : c9Inv base tid s) :
    c9Inv base tid (applyStep s st) := by
  obtain ⟨hnd, hrun, hproc⟩ := h
  have hcur : c9Inv base tid s := ⟨hnd, hrun, hproc⟩
  cases st with
  | start other c =>
    have hne : other ≠ tid := by simpa [isRevivalOf] using hst
    show c9Inv base tid (startTask s other c).1
    have hclean : c9Inv base tid (cleanupTask s other) :=
      c9Inv_cleanup base tid other hcur
    obtain ⟨hnd1, hrun1, hproc1⟩ := hclean
    cases he : c.sendingSchedule.isEmpty with
    | true =>
      have heq : startTask s other c =
          (cleanupTask s other, some (StartError.emptySchedule other)) := by
        unfold startTask
        rw [he]
        rfl
      rw [heq]
      exact ⟨hnd1, hrun1, hproc1⟩
    | false =>
      cases hm : firstMismatchDay c.sendingSchedule with
      | some d =>
        rw [startTask_mismatch he hm]
        exact ⟨hnd1, hrun1, hproc1⟩
      | none =>
        rw [startTask_ok he hm]
        refine c9Inv_of_eq_fields (jobs_scheduleAllEmails _ other)
          (tasks_scheduleAllEmails _ other) ⟨?_, ?_, ?_⟩
        · exact nodupKeys_foldl_mapSet hnd1
        · intro kv hm2 he2
          rcases mem_mapSet hm2 with h1 | h2
          · exfalso
            apply hne
            rw [h1] at he2
            exact he2
          · exact hrun1 kv h2 he2
        · intro kv hm2 ht2 hs2
          rcases mem_foldl_mapSet hm2 with h1 | ⟨j, hj, he3⟩
          · exact hproc1 kv h1 ht2 hs2
          · exfalso
            apply hne
            have hjt := generateEmailJobs_taskId hj
            rw [he3] at ht2
            exact hjt.symm.trans ht2
  | pause other =>
    show c9Inv base tid (pauseTask s other)
    cases hm : mapFind s.tasks other with
    | none => rw [pauseTask_none hm]; exact hcur
    | some t =>
      rw [pauseTask_some hm]
      refine ⟨hnd, ?_, hproc⟩
      intro kv hm2 he2
      have hm2x : kv ∈ mapUpdate s.tasks other
          (fun u => { u with isRunning := false }) := hm2
      rcases mem_mapUpdate hm2x with ⟨p, hp, ⟨he3, _⟩ | ⟨he3, _⟩⟩
      · rw [he3]; exact hrun p hp (by rw [← he3]; exact he2)
      · rw [he3]
  | resume other =>
    have hne : other ≠ tid := by simpa [isRevivalOf] using hst
    show c9Inv base tid (resumeTask s other)
    cases hm : mapFind s.tasks other with
    | none => rw [resumeTask_none hm]; exact hcur
    | some t =>
      cases ht : t.isRunning with
      | true => rw [resumeTask_running hm ht]; exact hcur
      | false =>
        rw [resumeTask_paused hm ht]
        refine c9Inv_of_eq_fields (jobs_scheduleAllEmails _ other)
          (tasks_scheduleAllEmails _ other) ⟨hnd, ?_, hproc⟩
        intro kv hm2 he2
        have hm2x : kv ∈ mapUpdate s.tasks other
            (fun u => { u with isRunning := true }) := hm2
        rcases mem_mapUpdate hm2x with ⟨p, hp, ⟨he3, _⟩ | ⟨he3, hb⟩⟩
        · rw [he3]; exact hrun p hp (by rw [← he3]; exact he2)
        · exfalso
          apply hne
          rw [he3] at he2
          have hpo : p.1 = other := by simpa using hb
          have he2x : p.1 = tid := he2
          exact hpo.symm.trans he2x
  | stop other => exact c9Inv_cleanup base tid other hcur
  | fire jid =>
    show c9Inv base tid (beginDispatch s jid)
    cases hj : mapFind s.emailJobs jid with
    | none => rw [beginDispatch_noJob hj]; exact hcur
    | some job =>
      cases hmt : mapFind s.tasks job.taskId with
      | none => rw [beginDispatch_noTask hj hmt]; exact hcur
      | some task =>
        cases htr : task.isRunning with
        | false => rw [beginDispatch_notRunning hj hmt htr]; exact hcur
        | true =>
          have hjob : job.taskId ≠ tid := by
            intro he
            obtain ⟨p, hp, hpk, hpv⟩ := mapFind_some_entry hmt
            have hf := hrun p hp (by rw [hpk]; exact he)
            rw [hpv] at hf
            rw [hf] at htr
            cases htr
          rw [beginDispatch_running hj hmt htr]
          refine ⟨?_, hrun, ?_⟩
          · show ((mapUpdate s.emailJobs jid (fun j => { j with status := JobStatus.processing, attempts := j.attempts + 1 })).map Prod.fst).Nodup
            exact nodupKeys_mapUpdate hnd
          · intro kv hm2 ht2 hs2
            have hm2x : kv ∈ mapUpdate s.emailJobs jid (fun j =>
              { j with status := JobStatus.processing,
                       attempts := j.attempts + 1 }) := hm2
            rcases mem_mapUpdate hm2x with ⟨p, hp, ⟨he3, _⟩ | ⟨he3, hb⟩⟩
            · rw [he3]
              exact hproc p hp (by rw [← he3]; exact ht2)
                (by rw [← he3]; exact hs2)
            · exfalso
              apply hjob
              have hpj : p.1 = jid := by simpa using hb
              have hpv : p.2 = job := mapFind_unique hnd hj p hp hpj
              rw [he3] at ht2
              rw [← hpv]
              exact ht2
  | complete jid r =>
    show c9Inv base tid (finishDispatch s jid r)
    cases hj : mapFind s.emailJobs jid with
    | none => rw [finishDispatch_noJob hj]; exact hcur
    | some job =>
      cases hs2 : (job.status == JobStatus.processing) with
      | false => rw [finishDispatch_notProcessing hj hs2]; exact hcur
      | true =>
        rw [finishDispatch_processing hj hs2]
        refine ⟨?_, ?_, ?_⟩
        · show ((mapUpdate s.emailJobs jid (applyOutcome r)).map Prod.fst).Nodup
          exact nodupKeys_mapUpdate hnd
        · intro kv hm2 he2
          have hm2x : kv ∈ mapUpdate s.tasks job.taskId (fun t =>
            updateTaskStatistics
              { t with statistics := statsOutcome r t.statistics }) := hm2
          rcases mem_mapUpdate hm2x with ⟨p, hp, ⟨he3, _⟩ | ⟨he3, _⟩⟩
          · rw [he3]; exact hrun p hp (by rw [← he3]; exact he2)
          · rw [he3]
            exact hrun p hp (by rw [he3] at he2; exact he2)
        · intro kv hm2 ht2 hs3
          have hm2x : kv ∈ mapUpdate s.emailJobs jid (applyOutcome r) := hm2
          rcases mem_mapUpdate hm2x with ⟨p, hp, ⟨he3, _⟩ | ⟨he3, _⟩⟩
          · rw [he3]
            exact hproc p hp (by rw [← he3]; exact ht2)
              (by rw [← he3]; exact hs3)
          · exfalso
            apply applyOutcome_status r p.2
            rw [he3] at hs3
            exact hs3
  | check other =>
    show c9Inv base tid (completionCheck s other)
    cases hm : mapFind s.tasks other with
    | none => rw [completionCheck_noTask hm]; exact hcur
    | some t =>
      cases ht : t.isRunning with
      | false => rw [completionCheck_notRunning hm ht]; exact hcur
      | true =>
        by_cases hp : ((s.emailJobs.filter (fun p =>
            (p.2.taskId == other) && (p.2.status == JobStatus.pending))).length) = 0
        · rw [completionCheck_done hm ht hp, completeTask_some hm]
          refine ⟨hnd, ?_, hproc⟩
          intro kv hm3 he3
          have hm3x : kv ∈ mapUpdate s.tasks other (fun u => { u with isRunning := false, completedAt := true }) := hm3
          rcases mem_mapUpdate hm3x with ⟨p, hp2, ⟨he4, _⟩ | ⟨he4, _⟩⟩
          · rw [he4]; exact hrun p hp2 (by rw [← he4]; exact he3)
          · rw [he4]
        · rw [completionCheck_pendingLeft hm ht hp]
          exact ⟨hnd, hrun, hproc⟩
  | reset =>
    refine ⟨List.nodup_nil, ?_, ?_⟩
    · intro kv hm; cases hm
    · intro kv hm; cases hm

theorem c9Inv_applySteps (base : SchedState) (tid : String) (tr : List Step)
    (hall : ∀ st ∈ tr, isRevivalOf tid st = false) :
    ∀ s, c9Inv base tid s → c9Inv base tid (applySteps s tr) := by
  induction tr with
  | nil => intro s hs; exact hs
  | cons st tr ih =>
    intro s hs
    exact ih (fun st2 hm => hall st2 (List.mem_cons_of_mem _ hm))
      (applyStep s st)
      (c9Inv_applyStep base tid s st (hall st (List.mem_cons_self _ _)) hs)

/-- C9: pausing an existing task sets its runtime not-running, leaves every
job untouched, cancels every timer and job timer keyed under the task id,
and — for any following interleaving that contains no `resumeTask` (or
re-`startTask`) of this task — no job of the task is ever `processing`
unless it already was when the pause returned: dispatch callbacks that fire
meanwhile re-check `isRunning` and do nothing. Job keys are assumed unique
(the scheduler's id discipline). -/
theorem pause_blocks_pending_to_processing (s : SchedState) (tid : String)
    (hnd : (s.emailJobs.map Prod.fst).Nodup)
    (htask : (mapFind s.tasks tid).isSome = true) :
    (pauseTask s tid).emailJobs = s.emailJobs ∧
    (∀ kv ∈ (pauseTask s tid).tasks, kv.1 = tid → kv.2.isRunning = false) ∧
    (∀ k ∈ (pauseTask s tid).timers, strStartsWith k tid = false) ∧
    (∀ k ∈ (pauseTask s tid).jobTimers, strStartsWith k tid = false) ∧
    (∀ tr : List Step, (∀ st ∈ tr, isRevivalOf tid st = false) →
      ∀ kv ∈ (applySteps (pauseTask s tid) tr).emailJobs,
        kv.2.taskId = tid → kv.2.status = JobStatus.processing →
        ∃ kv0 ∈ (pauseTask s tid).emailJobs, kv0.1 = kv.1 ∧
          kv0.2.status = JobStatus.processing) := by
  obtain ⟨t0, ht0⟩ := Option.isSome_iff_exists.mp htask
  have hjobs : (pauseTask s tid).emailJobs = s.emailJobs := by
    rw [pauseTask_some ht0]
    rfl
  have hrun : ∀ kv ∈ (pauseTask s tid).tasks, kv.1 = tid →
      kv.2.isRunning = false := by
    rw [pauseTask_some ht0]
    intro kv hm he
    have hmx : kv ∈ mapUpdate s.tasks tid
        (fun u => { u with isRunning := false }) := hm
    rcases mem_mapUpdate hmx with ⟨p, hp, ⟨he3, hb⟩ | ⟨he3, _⟩⟩
    · exfalso
      rw [he3] at he
      have hex : p.1 = tid := he
      rw [hex] at hb
      simp at hb
    · rw [he3]
  have htimers : ∀ k ∈ (pauseTask s tid).timers,
      strStartsWith k tid = false := by
    rw [pauseTask_some ht0]
    intro k hk
    have hkx : k ∈ s.timers.filter (fun x => !(strStartsWith x tid)) := hk
    have := (List.mem_filter.mp hkx).2
    simpa using this
  have hjtimers : ∀ k ∈ (pauseTask s tid).jobTimers,
      strStartsWith k tid = false := by
    rw [pauseTask_some ht0]
    intro k hk
    have hkx : k ∈ s.jobTimers.filter (fun x => !(strStartsWith x tid)) := hk
    have := (List.mem_filter.mp hkx).2
    simpa using this
  refine ⟨hjobs, hrun, htimers, hjtimers, ?_⟩
  intro tr hall kv hm ht hs2
  have hbase : c9Inv (pauseTask s tid) tid (pauseTask s tid) := by
    refine ⟨?_, hrun, ?_⟩
    · rw [hjobs]; exact hnd
    · intro kv0 hm0 _ hs0
      exact ⟨kv0, hm0, rfl, hs0⟩
  exact (c9Inv_applySteps (pauseTask s tid) tid tr hall (pauseTask s tid)
    hbase).2.2 kv hm ht hs2

/-- A placeholder job record for total lookups in witnesses. -/
def dummyJob : EmailJob :=
  { id := "", taskId := "", sendEmailId := "", receiveEmailId := 0
    scheduledDay := 0, scheduledLabel := "", status := JobStatus.pending
    attempts := 0, errorMessage := none, sentAt := false }

/-- The paused demo scheduler. -/
def c9Base : SchedState := pauseTask demoStart "t"

/-- The paused scheduler after a stray dispatch callback fired anyway. -/
def c9FinalJob : EmailJob :=
  (mapFind (applySteps c9Base [Step.fire demoJobId]).emailJobs demoJobId).getD
    dummyJob

/-- C9 witness: after pause, a firing dispatch leaves the jobs untouched and
the demo job is not `processing`. -/
theorem pause_blocks_pending_to_processing_witness :
    c9Base.emailJobs = demoStart.emailJobs ∧
    c9FinalJob.status ≠ JobStatus.processing := by
  obtain ⟨hjobs, _, _, _, hblock⟩ :=
    pause_blocks_pending_to_processing demoStart "t" (by decide) (by decide)
  refine ⟨hjobs, ?_⟩
  intro hcon
  obtain ⟨kv0, hm0, _, hs0⟩ :=
    hblock [Step.fire demoJobId] (by intro st hst; simp at hst; rw [hst]; rfl)
      (demoJobId, c9FinalJob) (by decide) (by decide) hcon
  have hnone : ∀ kv0 ∈ c9Base.emailJobs,
      kv0.2.status ≠ JobStatus.processing := by decide
  exact hnone kv0 hm0 hs0

/-! ## C4 / C5 — structure of the generated schedule -/

theorem createSenderGroups_length (senders : List String) (R : Nat)
    (hs : senders ≠ []) (hR : 1 ≤ R) :
    (createSenderGroups senders R).length = ceilDiv senders.length R := by
  have hT : 0 < senders.length := List.length_pos.mpr hs
  unfold createSenderGroups
  by_cases hle : senders.length ≤ R
  · rw [if_pos hle]
    rw [ceilDiv_eq_one _ _ hT hle]
    rfl
  · rw [if_neg hle]
    rw [List.length_map, List.length_range]

theorem createSenderGroups_size (senders : List String) (R : Nat) :
    ∀ g ∈ createSenderGroups senders R, g.length ≤ R := by
  intro g hg
  unfold createSenderGroups at hg
  by_cases hle : senders.length ≤ R
  · rw [if_pos hle] at hg
    rcases List.mem_cons.mp hg with h1 | h2
    · rw [h1]; exact hle
    · cases h2
  · rw [if_neg hle] at hg
    obtain ⟨gi, _, hgeq⟩ := List.mem_map.mp hg
    rw [← hgeq, List.length_map, List.length_range]

theorem createSenderGroups_mem (senders : List String) (R : Nat) :
    ∀ g ∈ createSenderGroups senders R, ∀ x ∈ g, x ∈ senders := by
  intro g hg x hx
  unfold createSenderGroups at hg
  by_cases hle : senders.length ≤ R
  · rw [if_pos hle] at hg
    rcases List.mem_cons.mp hg with h1 | h2
    · rw [h1] at hx; exact hx
    · cases h2
  · rw [if_neg hle] at hg
    obtain ⟨gi, _, hgeq⟩ := List.mem_map.mp hg
    rw [← hgeq] at hx
    obtain ⟨i, _, hxeq⟩ := List.mem_map.mp hx
    have hT : 0 < senders.length := by omega
    have hlt : (gi * R + i) % senders.length < senders.length :=
      Nat.mod_lt _ hT
    rw [← hxeq]
    rw [List.getD_eq_getElem _ _ hlt]
    exact List.getElem_mem _

/-- Content of a produced per-company entry: the sender id is copied and
every assigned recipient index is below `N`. -/
theorem companyDayEntry_sound {N C P H : Nat} {sid : String} {dig : Nat}
    {se : SenderDaySchedule} {k : Nat}
    (h : companyDayEntry N C P H sid dig = some (se, k)) :
    se.sendEmailId = sid ∧ ∀ r ∈ se.receiveEmailIds, r < N := by
  unfold companyDayEntry at h
  by_cases hpos : N - (dig - 1) * C > 0
  · rw [if_pos hpos] at h
    simp only [Option.some.injEq, Prod.mk.injEq] at h
    obtain ⟨hse, _⟩ := h
    constructor
    · rw [← hse]
    · intro r hr
      rw [← hse] at hr
      have hrx : r ∈ (List.range (min C (N - (dig - 1) * C))).filterMap
          (fun i => if (dig - 1) * C + i < N
            then some ((dig - 1) * C + i) else none) := hr
      obtain ⟨i, _, hcond⟩ := List.mem_filterMap.mp hrx
      by_cases hc : (dig - 1) * C + i < N
      · rw [if_pos hc] at hcond
        have : (dig - 1) * C + i = r := by simpa using hcond
        omega
      · rw [if_neg hc] at hcond
        cases hcond
  · rw [if_neg hpos] at h
    cases h

/-- Completeness of a per-company entry: for `r < N` and `C > 0`, on day
`r / C + 1` of the sender's group span the entry exists and assigns `r`. -/
theorem companyDayEntry_covers {N C P H : Nat} (hC : 0 < C) (sid : String)
    {r : Nat} (hr : r < N) :
    ∃ se k, companyDayEntry N C P H sid (r / C + 1) = some (se, k) ∧
      r ∈ se.receiveEmailIds := by
  have halready : r / C * C ≤ r := Nat.div_mul_le_self r C
  have hmod : r / C * C + r % C = r := by
    rw [Nat.mul_comm]
    exact Nat.div_add_mod r C
  have hmlt : r % C < C := Nat.mod_lt _ hC
  have hpos : N - (r / C + 1 - 1) * C > 0 := by
    simp only [Nat.add_sub_cancel]
    omega
  unfold companyDayEntry
  rw [if_pos hpos]
  refine ⟨_, _, rfl, ?_⟩
  show r ∈ (List.range (min C (N - (r / C + 1 - 1) * C))).filterMap
    (fun i => if (r / C + 1 - 1) * C + i < N
      then some ((r / C + 1 - 1) * C + i) else none)
  rw [List.mem_filterMap]
  refine ⟨r % C, ?_, ?_⟩
  · rw [List.mem_range]
    simp only [Nat.add_sub_cancel]
    omega
  · simp only [Nat.add_sub_cancel]
    have hc : r / C * C + r % C < N := by omega
    rw [if_pos hc, hmod]

/-- The sender entries of a built day are exactly the successful
per-company entries of the current group. -/
theorem mem_buildDaySchedule {N C P H : Nat} {group : List String}
    {day dig : Nat} {se : SenderDaySchedule} :
    se ∈ (buildDaySchedule N C P H group day dig).sendEmails ↔
      ∃ sid ∈ group, ∃ k, companyDayEntry N C P H sid dig = some (se, k) := by
  unfold buildDaySchedule
  constructor
  · intro h
    obtain ⟨⟨se', k⟩, hmem, heq⟩ := List.mem_map.mp h
    obtain ⟨sid, hsid, hentry⟩ := List.mem_filterMap.mp hmem
    refine ⟨sid, hsid, k, ?_⟩
    rw [hentry]
    rw [show se' = se from heq]
  · intro ⟨sid, hsid, k, hentry⟩
    refine List.mem_map.mpr ⟨(se, k), ?_, rfl⟩
    exact List.mem_filterMap.mpr ⟨sid, hsid, hentry⟩

/-- Every produced day is a `buildDaySchedule` of the group selected by its
day number. -/
theorem mem_scheduleDays {groups : List (List String)} {N C P H D : Nat}
    {d : DaySchedule} :
    ∀ {rem start : Nat}, d ∈ scheduleDays groups N C P H D start rem →
      ∃ day, (day - 1) / D < groups.length ∧
        d = buildDaySchedule N C P H (groups.getD ((day - 1) / D) []) day
          ((day - 1) % D + 1) := by
  intro rem
  induction rem with
  | zero => intro start h; cases h
  | succ rem ih =>
    intro start h
    unfold scheduleDays at h
    by_cases hcond : (start - 1) / D < groups.length
    · rw [dif_pos hcond] at h
      rcases List.mem_cons.mp h with h1 | h2
      · refine ⟨start, hcond, ?_⟩
        rw [h1]
        congr 1
        rw [List.getD_eq_getElem _ _ hcond]
        rfl
      · exact ih h2
    · rw [dif_neg hcond] at h
      cases h

/-- Conversely, every in-range day number contributes its built day,
provided the group index stays in range across the whole span (no `break`). -/
theorem scheduleDays_mem {groups : List (List String)} {N C P H D : Nat} :
    ∀ (rem start day : Nat), start ≤ day → day < start + rem →
      (∀ j, start ≤ j → j < start + rem → (j - 1) / D < groups.length) →
      buildDaySchedule N C P H (groups.getD ((day - 1) / D) []) day
          ((day - 1) % D + 1) ∈ scheduleDays groups N C P H D start rem := by
  intro rem
  induction rem with
  | zero => intro start day h1 h2 _; omega
  | succ rem ih =>
    intro start day h1 h2 hcov
    have hcond : (start - 1) / D < groups.length :=
      hcov start (le_refl _) (by omega)
    unfold scheduleDays
    rw [dif_pos hcond]
    by_cases hd : day = start
    · subst hd
      have : buildDaySchedule N C P H (groups.getD ((day - 1) / D) []) day
          ((day - 1) % D + 1) = buildDaySchedule N C P H
            (groups.get ⟨(day - 1) / D, hcond⟩) day ((day - 1) % D + 1) := by
        congr 1
        rw [List.getD_eq_getElem _ _ hcond]
        rfl
      rw [this]
      exact List.mem_cons_self _ _
    · refine List.mem_cons_of_mem _ ?_
      exact ih (start + 1) day (by omega) (by omega)
        (fun j hj1 hj2 => hcov j (by omega) (by omega))

/-- C5: on every day of every valid plan, the number of distinct senders
scheduled to any recipient `r` is at most `R` — every day's entries draw
their senders from the single active group, whose size never exceeds `R`. -/
theorem recipient_diversity_cap (p : TaskParams)
    (hs : p.sendEmailIds ≠ []) (hN : 0 < p.receiveEmailCount)
    (hP : 0 < p.emailsPerHour) (hR : 1 ≤ p.emailsPerTeacherPerDay)
    (hH1 : 1 ≤ p.workingHours) (hH2 : p.workingHours ≤ 24) :
    ∀ d ∈ (calculateTask p).sendingSchedule, ∀ r : Nat,
      ((d.sendEmails.filter (fun se => se.receiveEmailIds.contains r)).map
        (fun se => se.sendEmailId)).toFinset.card ≤
        p.emailsPerTeacherPerDay := by
  intro d hd r
  have hd' : d ∈ scheduleDays
      (createSenderGroups p.sendEmailIds p.emailsPerTeacherPerDay)
      p.receiveEmailCount (p.emailsPerHour * p.workingHours) p.emailsPerHour
      p.workingHours
      (ceilDiv p.receiveEmailCount (p.emailsPerHour * p.workingHours)) 1
      (ceilDiv p.sendEmailIds.length p.emailsPerTeacherPerDay *
        ceilDiv p.receiveEmailCount (p.emailsPerHour * p.workingHours)) := hd
  obtain ⟨day, hidx, hdeq⟩ := mem_scheduleDays hd'
  have hgmem : (createSenderGroups p.sendEmailIds
      p.emailsPerTeacherPerDay).getD ((day - 1) /
        ceilDiv p.receiveEmailCount (p.emailsPerHour * p.workingHours)) [] ∈
      createSenderGroups p.sendEmailIds p.emailsPerTeacherPerDay := by
    rw [List.getD_eq_getElem _ _ hidx]
    exact List.getElem_mem _
  have hglen := createSenderGroups_size p.sendEmailIds
    p.emailsPerTeacherPerDay _ hgmem
  refine le_trans (le_trans (Finset.card_le_card ?_)
    (List.toFinset_card_le _)) hglen
  intro x hx
  rw [List.mem_toFinset] at hx ⊢
  obtain ⟨se, hse, hxeq⟩ := List.mem_map.mp hx
  have hse2 : se ∈ d.sendEmails := List.mem_of_mem_filter hse
  rw [hdeq] at hse2
  obtain ⟨sid, hsid, k, hentry⟩ := mem_buildDaySchedule.mp hse2
  have := (companyDayEntry_sound hentry).1
  rw [← hxeq, this]
  exact hsid

/-- A small valid plan for the diversity witness: three senders, two
recipients, `P = 1`, `R = 2`, `H = 1`. -/
def c5Params : TaskParams :=
  { sendEmailIds := ["A", "B", "C"]
    receiveEmailCount := 2
    emailsPerHour := 1
    emailsPerTeacherPerDay := 2
    workingHours := 1 }

/-- The first day of the `c5Params` plan. -/
def c5Day : DaySchedule :=
  (calculateTask c5Params).sendingSchedule.getD 0 ⟨0, [], 0⟩

/-- C5 witness: at most `R = 2` distinct senders reach recipient 0 on the
first day of the `c5Params` plan. -/
theorem recipient_diversity_cap_witness :
    ((c5Day.sendEmails.filter (fun se => se.receiveEmailIds.contains 0)).map
      (fun se => se.sendEmailId)).toFinset.card ≤ 2 :=
  recipient_diversity_cap c5Params (by decide) (by decide) (by decide)
    (by decide) (by decide) (by decide) c5Day (by decide) 0

/-- Every sender occurs in some group (group `j / R` in the wrapping case). -/
theorem createSenderGroups_covers (senders : List String) (R : Nat)
    (hs : senders ≠ []) (hR : 1 ≤ R) :
    ∀ sid ∈ senders, ∃ gi < (createSenderGroups senders R).length,
      sid ∈ (createSenderGroups senders R).getD gi [] := by
  intro sid hsid
  have hT : 0 < senders.length := List.length_pos.mpr hs
  by_cases hle : senders.length ≤ R
  · refine ⟨0, ?_, ?_⟩
    · unfold createSenderGroups
      rw [if_pos hle]
      simp
    · unfold createSenderGroups
      rw [if_pos hle]
      exact hsid
  · obtain ⟨j, hj, hjeq⟩ := List.mem_iff_getElem.mp hsid
    have hgi : j / R < ceilDiv senders.length R := by
      rw [ceilDiv_eq_pred_div_succ _ _ hT (by omega)]
      have := Nat.div_le_div_right (c := R) (show j ≤ senders.length - 1 by omega)
      omega
    refine ⟨j / R, ?_, ?_⟩
    · rw [createSenderGroups_length _ _ hs hR]
      exact hgi
    · unfold createSenderGroups
      rw [if_neg hle]
      rw [List.getD_eq_getElem _ _
        (by rw [List.length_map, List.length_range]; exact hgi)]
      rw [List.getElem_map, List.getElem_range]
      refine List.mem_map.mpr
        ⟨j % R, List.mem_range.mpr (Nat.mod_lt _ (by omega)), ?_⟩
      have hjr : j / R * R + j % R = j := by
        rw [Nat.mul_comm]
        exact Nat.div_add_mod j R
      rw [hjr, Nat.mod_eq_of_lt hj]
      rw [List.getD_eq_getElem _ _ hj]
      exact hjeq

/-- C4: for every valid planner input with pairwise-distinct sender ids,
the seeded status matrix is exactly the full product
`{0..N-1} × senders` — every one of the `|senders| · N` pairs occurs in
some day's per-sender recipient list — and therefore holds exactly
`|senders| · N` cells, all `pending`. -/
theorem statusMatrix_complete (p : TaskParams)
    (hs : p.sendEmailIds ≠ []) (hnd : p.sendEmailIds.Nodup)
    (hN : 0 < p.receiveEmailCount) (hP : 0 < p.emailsPerHour)
    (hR : 1 ≤ p.emailsPerTeacherPerDay)
    (hH1 : 1 ≤ p.workingHours) (hH2 : p.workingHours ≤ 24) :
    (calculateTask p).statusMatrix =
      Finset.range p.receiveEmailCount ×ˢ p.sendEmailIds.toFinset ∧
    (calculateTask p).statusMatrix.card =
      p.sendEmailIds.length * p.receiveEmailCount := by
  have hC : 0 < p.emailsPerHour * p.workingHours := by positivity
  have hT : 0 < p.sendEmailIds.length := List.length_pos.mpr hs
  have hD : 0 < ceilDiv p.receiveEmailCount (p.emailsPerHour * p.workingHours) :=
    ceilDiv_pos _ _ hN hC
  have hG : 0 < ceilDiv p.sendEmailIds.length p.emailsPerTeacherPerDay :=
    ceilDiv_pos _ _ hT (by omega)
  have hglen : (createSenderGroups p.sendEmailIds
      p.emailsPerTeacherPerDay).length =
      ceilDiv p.sendEmailIds.length p.emailsPerTeacherPerDay :=
    createSenderGroups_length _ _ hs hR
  have hGDdiv : ∀ j, 1 ≤ j →
      j < 1 + ceilDiv p.sendEmailIds.length p.emailsPerTeacherPerDay *
        ceilDiv p.receiveEmailCount (p.emailsPerHour * p.workingHours) →
      (j - 1) / ceilDiv p.receiveEmailCount (p.emailsPerHour * p.workingHours) <
        (createSenderGroups p.sendEmailIds p.emailsPerTeacherPerDay).length := by
    intro j hj1 hj2
    rw [hglen]
    set G := ceilDiv p.sendEmailIds.length p.emailsPerTeacherPerDay with hGdef
    set D := ceilDiv p.receiveEmailCount (p.emailsPerHour * p.workingHours)
      with hDdef
    have hmul : (G - 1) * D + D = G * D := by
      have h1 : G - 1 + 1 = G := by omega
      calc (G - 1) * D + D = (G - 1 + 1) * D := by ring
      _ = G * D := by rw [h1]
    have hGD1 : (G * D - 1) / D = G - 1 := by
      have h1 : G * D - 1 = (D - 1) + (G - 1) * D := by omega
      rw [h1, Nat.add_mul_div_right _ _ hD, Nat.div_eq_of_lt (by omega)]
      omega
    have hle2 : (j - 1) / D ≤ (G * D - 1) / D :=
      Nat.div_le_div_right (by omega)
    omega
  have hmain : (calculateTask p).statusMatrix =
      Finset.range p.receiveEmailCount ×ˢ p.sendEmailIds.toFinset := by
    apply Finset.ext
    intro x
    show x ∈ ((scheduleDays
          (createSenderGroups p.sendEmailIds p.emailsPerTeacherPerDay)
          p.receiveEmailCount (p.emailsPerHour * p.workingHours)
          p.emailsPerHour p.workingHours
          (ceilDiv p.receiveEmailCount (p.emailsPerHour * p.workingHours)) 1
          (ceilDiv p.sendEmailIds.length p.emailsPerTeacherPerDay *
            ceilDiv p.receiveEmailCount
              (p.emailsPerHour * p.workingHours))).flatMap (fun d =>
        d.sendEmails.flatMap (fun se =>
          se.receiveEmailIds.map (fun r => (r, se.sendEmailId))))).toFinset ↔ _
    rw [List.mem_toFinset, Finset.mem_product, Finset.mem_range,
      List.mem_toFinset]
    constructor
    · intro hx
      obtain ⟨d, hd, hx2⟩ := List.mem_flatMap.mp hx
      obtain ⟨se, hse, hx3⟩ := List.mem_flatMap.mp hx2
      obtain ⟨r, hr, hx4⟩ := List.mem_map.mp hx3
      obtain ⟨day, hidx, hdeq⟩ := mem_scheduleDays hd
      rw [hdeq] at hse
      obtain ⟨sid, hsid, k, hentry⟩ := mem_buildDaySchedule.mp hse
      obtain ⟨hsenderid, hbound⟩ := companyDayEntry_sound hentry
      have hgmem : (createSenderGroups p.sendEmailIds
          p.emailsPerTeacherPerDay).getD ((day - 1) /
            ceilDiv p.receiveEmailCount (p.emailsPerHour * p.workingHours))
            [] ∈
          createSenderGroups p.sendEmailIds p.emailsPerTeacherPerDay := by
        rw [List.getD_eq_getElem _ _ hidx]
        exact List.getElem_mem _
      constructor
      · rw [← hx4]
        exact hbound r hr
      · rw [← hx4]
        show se.sendEmailId ∈ p.sendEmailIds
        rw [hsenderid]
        exact createSenderGroups_mem _ _ _ hgmem sid hsid
    · rintro ⟨hr, hsid⟩
      obtain ⟨gi, hgi, hgmem⟩ :=
        createSenderGroups_covers p.sendEmailIds p.emailsPerTeacherPerDay
          hs hR x.2 hsid
      have hrD : x.1 / (p.emailsPerHour * p.workingHours) <
          ceilDiv p.receiveEmailCount (p.emailsPerHour * p.workingHours) :=
        lt_ceilDiv _ _ _ hC hr
      have hgiG : gi <
          ceilDiv p.sendEmailIds.length p.emailsPerTeacherPerDay := by
        rw [← hglen]
        exact hgi
      obtain ⟨se, k, hentry, hrmem⟩ :=
        companyDayEntry_covers (P := p.emailsPerHour) (H := p.workingHours)
          hC x.2 hr
      have h1 : gi * ceilDiv p.receiveEmailCount
            (p.emailsPerHour * p.workingHours) +
            x.1 / (p.emailsPerHour * p.workingHours) + 1 - 1 =
          x.1 / (p.emailsPerHour * p.workingHours) +
            gi * ceilDiv p.receiveEmailCount
              (p.emailsPerHour * p.workingHours) := by
        rw [Nat.add_sub_cancel]
        exact Nat.add_comm _ _
      have hidx : (gi * ceilDiv p.receiveEmailCount
            (p.emailsPerHour * p.workingHours) +
            x.1 / (p.emailsPerHour * p.workingHours) + 1 - 1) /
          ceilDiv p.receiveEmailCount (p.emailsPerHour * p.workingHours) =
          gi := by
        rw [h1, Nat.add_mul_div_right _ _ hD, Nat.div_eq_of_lt hrD]
        exact Nat.zero_add gi
      have hdig : (gi * ceilDiv p.receiveEmailCount
            (p.emailsPerHour * p.workingHours) +
            x.1 / (p.emailsPerHour * p.workingHours) + 1 - 1) %
          ceilDiv p.receiveEmailCount (p.emailsPerHour * p.workingHours) + 1 =
          x.1 / (p.emailsPerHour * p.workingHours) + 1 := by
        rw [h1, Nat.add_mul_mod_self_right, Nat.mod_eq_of_lt hrD]
      have hdaylt : gi * ceilDiv p.receiveEmailCount
            (p.emailsPerHour * p.workingHours) +
            x.1 / (p.emailsPerHour * p.workingHours) + 1 <
          1 + ceilDiv p.sendEmailIds.length p.emailsPerTeacherPerDay *
            ceilDiv p.receiveEmailCount (p.emailsPerHour * p.workingHours) := by
        have hmul : (gi + 1) * ceilDiv p.receiveEmailCount
              (p.emailsPerHour * p.workingHours) ≤
            ceilDiv p.sendEmailIds.length p.emailsPerTeacherPerDay *
              ceilDiv p.receiveEmailCount (p.emailsPerHour * p.workingHours) :=
          Nat.mul_le_mul_right _ (by omega)
        have h2 : (gi + 1) * ceilDiv p.receiveEmailCount
              (p.emailsPerHour * p.workingHours) =
            gi * ceilDiv p.receiveEmailCount
              (p.emailsPerHour * p.workingHours) +
              ceilDiv p.receiveEmailCount (p.emailsPerHour * p.workingHours) :=
          by ring
        rw [h2] at hmul
        omega
      have hdmem := @scheduleDays_mem
        (createSenderGroups p.sendEmailIds p.emailsPerTeacherPerDay)
        p.receiveEmailCount (p.emailsPerHour * p.workingHours)
        p.emailsPerHour p.workingHours
        (ceilDiv p.receiveEmailCount (p.emailsPerHour * p.workingHours))
        (ceilDiv p.sendEmailIds.length p.emailsPerTeacherPerDay *
          ceilDiv p.receiveEmailCount (p.emailsPerHour * p.workingHours)) 1
        (gi * ceilDiv p.receiveEmailCount (p.emailsPerHour * p.workingHours) +
          x.1 / (p.emailsPerHour * p.workingHours) + 1)
        (by omega) (by omega) (fun j hj1 hj2 => hGDdiv j hj1 hj2)
      refine List.mem_flatMap.mpr ⟨_, hdmem, ?_⟩
      refine List.mem_flatMap.mpr ⟨se, ?_, ?_⟩
      · apply mem_buildDaySchedule.mpr
        refine ⟨x.2, ?_, k, ?_⟩
        · rw [hidx]
          exact hgmem
        · rw [hdig]
          exact hentry
      · refine List.mem_map.mpr ⟨x.1, hrmem, ?_⟩
        rw [(companyDayEntry_sound hentry).1]
  refine ⟨hmain, ?_⟩
  rw [hmain, Finset.card_product, Finset.card_range,
    List.toFinset_card_of_nodup hnd, Nat.mul_comm]

/-- C4 witness: scenario S1 seeds exactly `6 · 30 = 180` pending cells. -/
theorem statusMatrix_complete_witness :
    (calculateTask s1Params).statusMatrix.card = 180 := by
  have h := (statusMatrix_complete s1Params (by decide) (by decide)
    (by decide) (by decide) (by decide) (by decide) (by decide)).2
  rw [h]
  decide

end EmailSender
